import Mathlib

/-!
# Rank-biased overlap and the similarity graph: a shallow embedding

Embedding of `pkg/rbo/rbo.go`, `pkg/graph/graph.go` and `pkg/graph/pool.go`.

## Numbers

`float64` is read exactly.  A value is `some x` for a finite number `x` of an
ordered field `F` (the rationals when a result is to be evaluated, the reals
when the natural logarithm is to be the real one) and `none` for a value that
is not a finite number (NaN, +Inf, -Inf).  Every operation the package applies
to a non-finite operand gives a non-finite result (there is no division by an
infinity and no comparison on a computed value), so the three non-finite values
need not be told apart.  Rounding and overflow are not modelled.

`math.Log` is code of the Go standard library: its finite part is a parameter
`ln : F → F` of the functions that call it.

## Nodes

`Node` is an interface; `SimpleContainer` (and the test double `Container`,
which has the same shape) is its only implementation, with
`Length() = len(Set())`.  Nodes are modelled by `SimpleContainer`.

A second reading of the same functions keeps the run-time checks of Go (a slice bound
or an index out of range is an error) over any implementation of the interface; on
nodes with `Length() = len(Set())` the two readings agree (`RBOChecked_ok`).
-/

namespace rbo

/-! ## Exact reading of float64 -/

/-- Sum of two float64 values. -/
def fadd {F : Type} [LinearOrderedField F] (x y : Option F) : Option F :=
  match x, y with
  | some a, some b => some (a + b)
  | _, _ => none

/-- Difference of two float64 values. -/
def fsub {F : Type} [LinearOrderedField F] (x y : Option F) : Option F :=
  match x, y with
  | some a, some b => some (a - b)
  | _, _ => none

/-- Product of two float64 values. -/
def fmul {F : Type} [LinearOrderedField F] (x y : Option F) : Option F :=
  match x, y with
  | some a, some b => some (a * b)
  | _, _ => none

/-- Quotient of two float64 values: a zero divisor gives NaN or an infinity. -/
def fdiv {F : Type} [LinearOrderedField F] (x y : Option F) : Option F :=
  match x, y with
  | some a, some b => if b = 0 then none else some (a / b)
  | _, _ => none

/-- Value of `math.Pow(p, float64(d))` for a finite `p` and an integer `d`:
`Pow(0, d)` is +Inf for negative `d`, and `Pow(p, 0)` is 1. -/
def fpow {F : Type} [LinearOrderedField F] (p : F) (d : Int) : Option F :=
  if p = 0 ∧ d < 0 then none else some (p ^ d)

/-- Value of `math.Log(x)`: NaN for a negative or NaN argument, -Inf at 0, +Inf at
+Inf, and the natural logarithm `ln x` of a positive finite `x`. -/
def flog {F : Type} [LinearOrderedField F] (ln : F → F) (x : Option F) : Option F :=
  match x with
  | some a => if a ≤ 0 then none else some (ln a)
  | none => none

/-- Conversion `float64(n)` of a Go int. -/
def ofInt {F : Type} [LinearOrderedField F] (n : Int) : Option F := some (n : F)

/-- The values `lo, lo+1, ..., hi-1` taken by the counter of
`for d := lo; d < hi; d++`. -/
def upto (lo hi : Int) : List Int :=
  (List.range (hi - lo).toNat).map (fun i => lo + (i : Int))

/-! ## pkg/rbo/rbo.go -/

/-- SimpleContainer is a simple flat structure for holding a named list of strings. -/
structure SimpleContainer where
  Name : String
  Members : List String
deriving DecidableEq, Repr

/-- The Node interface, through its implementation. -/
abbrev Node := SimpleContainer

/-- Label returns the name of the simple container. -/
def SimpleContainer.Label (sc : SimpleContainer) : String := sc.Name

/-- Set returns the members of the container. -/
def SimpleContainer.Set (sc : SimpleContainer) : List String := sc.Members

/-- Length returns the members count. -/
def SimpleContainer.Length (sc : SimpleContainer) : Int := (sc.Members.length : Int)

/-- Variadic `min(nums ...int)` on `nums = n0 :: rest`: `min := nums[0]`, then every
`n` of `nums[1:]` with `n < min` replaces it.  (A call with no argument would index
out of range; every call of the package passes two or three.) -/
def min (n0 : Int) (rest : List Int) : Int :=
  rest.foldl (fun m n => if n < m then n else m) n0

/-- Go `intersection`: `make([]string, len(a)*2)` creates a slice that already HAS
`2*len(a)` empty strings; the members of `b` that are keys of the map built from `a`
are appended after them. -/
def intersection (a b : List String) : List String :=
  b.foldl (fun intersect m => if m ∈ a then intersect ++ [m] else intersect)
    (List.replicate (a.length * 2) "")

/-- Go `orderByLength`. -/
def orderByLength (a b : Node) : Node × Node :=
  if a.Length ≤ b.Length then (a, b) else (b, a)

/-- Go `rawOverlap`: lengths of the intersection slice and of the two slices
`a.Set()[:min(depth, a.Length())]`, `b.Set()[:min(depth, b.Length())]`.
The slice bound is in range whenever `0 ≤ depth` (a negative bound panics in Go;
the package never passes one). -/
def rawOverlap (a b : Node) (depth : Int) : Int × Int × Int :=
  let aMembers := a.Set.take (min depth [a.Length]).toNat
  let bMembers := b.Set.take (min depth [b.Length]).toNat
  let intersect := intersection aMembers bMembers
  ((intersect.length : Int), (aMembers.length : Int), (bMembers.length : Int))

/-- Go `agreement`: `float64(2*lenIntersect) / float64(lenA + lenB)`. -/
def agreement {F : Type} [LinearOrderedField F] (a b : Node) (depth : Int) : Option F :=
  let r := rawOverlap a b depth
  fdiv (ofInt (2 * r.1)) (ofInt (r.2.1 + r.2.2))

/-- Go `overlap`: agreement times `min(depth, a.Length(), b.Length())`. -/
def overlap {F : Type} [LinearOrderedField F] (a b : Node) (depth : Int) : Option F :=
  let minDepth : Option F := ofInt (min depth [a.Length, b.Length])
  fmul (agreement a b depth) minDepth

/-- Go `rboMin`: depth 0 stands for `min(a.Length(), b.Length())`; the float counter
`d` runs over `1, ..., depth`. -/
def rboMin {F : Type} [LinearOrderedField F] (ln : F → F) (a b : Node) (p : F)
    (depth : Int) : Option F :=
  let depth := if depth = 0 then min a.Length [b.Length] else depth
  let xk : Option F := overlap a b depth
  let logTerm := fmul xk (flog ln (some (1 - p)))
  let sumTerm := (upto 1 (depth + 1)).foldl
    (fun sumTerm d =>
      let o := fsub (overlap a b d) xk
      let val := fmul (fdiv (fpow p d) (ofInt d)) o
      fadd sumTerm val)
    (some 0)
  fmul (fdiv (some (1 - p)) (some p)) (fsub sumTerm logTerm)

/-- Sum of `math.Pow(p, float64(d)) / float64(d)` for `d` from `lo` to `hi - 1`
(the three accumulation loops of `rboRes`). -/
def powSum {F : Type} [LinearOrderedField F] (p : F) (lo hi : Int) : Option F :=
  (upto lo hi).foldl (fun term d => fadd term (fdiv (fpow p d) (ofInt d))) (some 0)

/-- Go `rboRes`.  When `xl` is not finite the conversion `int(math.Ceil(..))` is
implementation-dependent, and `term3`, hence the result, is NaN whatever `f` is. -/
def rboRes {F : Type} [LinearOrderedField F] [FloorRing F] (ln : F → F) (a b : Node)
    (p : F) : Option F :=
  let SL := orderByLength a b
  let s := SL.1.Length
  let l := SL.2.Length
  match (overlap a b l : Option F) with
  | none => none
  | some xl =>
    let f : Int := ⌈(l : F) + (s : F) - xl⌉
    let term1 := fmul (ofInt s) (powSum p (s + 1) (f + 1))
    let term2 := fmul (ofInt l) (powSum p (l + 1) (f + 1))
    let term3 := fsub (fmul (some xl) (flog ln (fdiv (some 1) (some (1 - p)))))
      (powSum p 1 (f + 1))
    fsub (fsub (fadd (fpow p s) (fpow p l)) (fpow p f))
      (fmul (fdiv (some (1 - p)) (some p)) (fmul (fmul term1 term2) term3))

/-- Go `rboExt`. -/
def rboExt {F : Type} [LinearOrderedField F] (a b : Node) (p : F) : Option F :=
  let SL := orderByLength a b
  let s := SL.1.Length
  let l := SL.2.Length
  let xl : Option F := overlap a b l
  let xs : Option F := overlap a b s
  let sum1 := (upto 1 (l + 1)).foldl
    (fun sum1 d => fadd sum1 (fmul (fpow p d) (agreement a b d))) (some 0)
  let sum2 := (upto (s + 1) (l + 1)).foldl
    (fun sum2 d =>
      fadd sum2 (fdiv (fdiv (fmul (fmul (fpow p d) xs) (ofInt (d - s))) (ofInt s)) (ofInt d)))
    (some 0)
  let term1 := fmul (fdiv (some (1 - p)) (some p)) (fadd sum1 sum2)
  let term2 := fmul (fpow p l) (fadd (fdiv (fsub xl xs) (ofInt l)) (fdiv xs (ofInt s)))
  fadd term1 term2

/-- The four named results of Go `RBO`. -/
structure RBOResult (F : Type) where
  min : Option F
  res : Option F
  ext : Option F
  err : Option String

/-- Go `RBO`: on a bad `p` the three numbers keep their zero value. -/
def RBO {F : Type} [LinearOrderedField F] [FloorRing F] (ln : F → F) (a b : Node)
    (p : F) : RBOResult F :=
  if p < 0 ∨ p > 1 then
    { min := some 0, res := some 0, ext := some 0, err := some "p must be between 0 and 1" }
  else
    { min := rboMin ln a b p 0, res := rboRes ln a b p, ext := rboExt a b p, err := none }

/-- Rank-biased overlap of two infinite rankings `A` and `B` at persistence `p`, in the
words of the lower-bound claim: `(1-p) * Σ_{d ≥ 1} p^(d-1) * |A[:d] ∩ B[:d]| / d`.
The term of index `k` of the series is the one of depth `d = k + 1`.  (The reference
quantity of the claim, not code of the package.) -/
noncomputable def trueRBO (A B : ℕ → String) (p : ℝ) : ℝ :=
  (1 - p) * tsum (fun k : ℕ => p ^ k *
    ((((List.range (k + 1)).map A).toFinset ∩ ((List.range (k + 1)).map B).toFinset).card : ℝ)
      / ((k : ℝ) + 1))

/-! ### The same functions with the run-time checks of Go

The definitions above give every slice expression and every index a value.  Below, a
slice bound or an index out of range ends the computation with the run-time error,
and a node is any implementation of the interface: what its three methods return,
`Length()` not being tied to `Set()`. -/

/-- Any implementation of the Node interface: the values its three methods return. -/
structure NodeImpl where
  Label : String
  Set : List String
  Length : Int

/-- A SimpleContainer seen through the interface. -/
def SimpleContainer.impl (sc : SimpleContainer) : NodeImpl :=
  { Label := sc.Label, Set := sc.Set, Length := sc.Length }

/-- Slice expression `xs[:n]`: a bound below 0 or above the length panics.  (Go allows a
bound up to the capacity; a slice whose capacity exceeds its length is not modelled.) -/
def sliceTo (xs : List String) (n : Int) : Except String (List String) :=
  if 0 ≤ n ∧ n ≤ (xs.length : Int) then Except.ok (xs.take n.toNat)
  else Except.error "slice bounds out of range"

/-- Variadic `min(nums ...int)` with its first statement `min := nums[0]`, which panics
when no argument is passed. -/
def minChecked (nums : List Int) : Except String Int :=
  match nums with
  | [] => Except.error "index out of range"
  | n0 :: rest => Except.ok (min n0 rest)

/-- Go `orderByLength` on any nodes. -/
def orderByLengthImpl (a b : NodeImpl) : NodeImpl × NodeImpl :=
  if a.Length ≤ b.Length then (a, b) else (b, a)

/-- Go `rawOverlap` with the checks of `min` and of the two slice expressions. -/
def rawOverlapChecked (a b : NodeImpl) (depth : Int) : Except String (Int × Int × Int) := do
  let na ← minChecked [depth, a.Length]
  let aMembers ← sliceTo a.Set na
  let nb ← minChecked [depth, b.Length]
  let bMembers ← sliceTo b.Set nb
  let intersect := intersection aMembers bMembers
  pure ((intersect.length : Int), (aMembers.length : Int), (bMembers.length : Int))

/-- Go `agreement`, checked. -/
def agreementChecked {F : Type} [LinearOrderedField F] (a b : NodeImpl) (depth : Int) :
    Except String (Option F) := do
  let r ← rawOverlapChecked a b depth
  pure (fdiv (ofInt (2 * r.1)) (ofInt (r.2.1 + r.2.2)))

/-- Go `overlap`, checked. -/
def overlapChecked {F : Type} [LinearOrderedField F] (a b : NodeImpl) (depth : Int) :
    Except String (Option F) := do
  let m ← minChecked [depth, a.Length, b.Length]
  let agr ← agreementChecked a b depth
  pure (fmul agr (ofInt m))

/-- Go `rboMin`, checked. -/
def rboMinChecked {F : Type} [LinearOrderedField F] (ln : F → F) (a b : NodeImpl) (p : F)
    (depth : Int) : Except String (Option F) := do
  let depth ← if depth = 0 then minChecked [a.Length, b.Length] else pure depth
  let xk ← overlapChecked a b depth
  let logTerm := fmul xk (flog ln (some (1 - p)))
  let sumTerm ← (upto 1 (depth + 1)).foldlM
    (fun sumTerm d => do
      let od ← overlapChecked a b d
      let o := fsub od xk
      let val := fmul (fdiv (fpow p d) (ofInt d)) o
      pure (fadd sumTerm val))
    (some 0)
  pure (fmul (fdiv (some (1 - p)) (some p)) (fsub sumTerm logTerm))

/-- Go `rboRes`, checked. -/
def rboResChecked {F : Type} [LinearOrderedField F] [FloorRing F] (ln : F → F)
    (a b : NodeImpl) (p : F) : Except String (Option F) := do
  let SL := orderByLengthImpl a b
  let s := SL.1.Length
  let l := SL.2.Length
  let xl ← overlapChecked a b l
  match xl with
  | none => pure none
  | some xl =>
    let f : Int := ⌈(l : F) + (s : F) - xl⌉
    let term1 := fmul (ofInt s) (powSum p (s + 1) (f + 1))
    let term2 := fmul (ofInt l) (powSum p (l + 1) (f + 1))
    let term3 := fsub (fmul (some xl) (flog ln (fdiv (some 1) (some (1 - p)))))
      (powSum p 1 (f + 1))
    pure (fsub (fsub (fadd (fpow p s) (fpow p l)) (fpow p f))
      (fmul (fdiv (some (1 - p)) (some p)) (fmul (fmul term1 term2) term3)))

/-- Go `rboExt`, checked. -/
def rboExtChecked {F : Type} [LinearOrderedField F] (a b : NodeImpl) (p : F) :
    Except String (Option F) := do
  let SL := orderByLengthImpl a b
  let s := SL.1.Length
  let l := SL.2.Length
  let xl ← overlapChecked a b l
  let xs ← overlapChecked a b s
  let sum1 ← (upto 1 (l + 1)).foldlM
    (fun sum1 d => do
      let agr ← agreementChecked a b d
      pure (fadd sum1 (fmul (fpow p d) agr)))
    (some 0)
  let sum2 := (upto (s + 1) (l + 1)).foldl
    (fun sum2 d =>
      fadd sum2 (fdiv (fdiv (fmul (fmul (fpow p d) xs) (ofInt (d - s))) (ofInt s)) (ofInt d)))
    (some 0)
  let term1 := fmul (fdiv (some (1 - p)) (some p)) (fadd sum1 sum2)
  let term2 := fmul (fpow p l) (fadd (fdiv (fsub xl xs) (ofInt l)) (fdiv xs (ofInt s)))
  pure (fadd term1 term2)

/-- Go `RBO`, checked: `Except.error` is a panic, `Except.ok` the four results. -/
def RBOChecked {F : Type} [LinearOrderedField F] [FloorRing F] (ln : F → F)
    (a b : NodeImpl) (p : F) : Except String (RBOResult F) :=
  if p < 0 ∨ p > 1 then
    pure { min := some 0, res := some 0, ext := some 0,
           err := some "p must be between 0 and 1" }
  else do
    let min ← rboMinChecked ln a b p 0
    let res ← rboResChecked ln a b p
    let ext ← rboExtChecked a b p
    pure { min := min, res := res, ext := ext, err := none }

/-! ### The parameter `p` as any float64 value -/

/-- A float64 argument: a finite number, NaN, or one of the two infinities. -/
inductive Float64 (F : Type) where
  | finite (x : F)
  | nan
  | posInf
  | negInf

/-- Go `p < 0` on a float64: false for NaN and +Inf, true for -Inf. -/
def Float64.ltZero {F : Type} [LinearOrderedField F] : Float64 F → Prop
  | Float64.finite x => x < 0
  | Float64.nan => False
  | Float64.posInf => False
  | Float64.negInf => True

/-- Go `p > 1` on a float64: false for NaN and -Inf, true for +Inf. -/
def Float64.gtOne {F : Type} [LinearOrderedField F] : Float64 F → Prop
  | Float64.finite x => x > 1
  | Float64.nan => False
  | Float64.posInf => True
  | Float64.negInf => False

/-- Membership of a float64 in the interval `[0, 1]` (`0 <= p && p <= 1`): only finite
numbers can be members. -/
def Float64.inUnit {F : Type} [LinearOrderedField F] : Float64 F → Prop
  | Float64.finite x => 0 ≤ x ∧ x ≤ 1
  | Float64.nan => False
  | Float64.posInf => False
  | Float64.negInf => False

instance {F : Type} [LinearOrderedField F] (p : Float64 F) : Decidable p.ltZero := by
  cases p <;> simp only [Float64.ltZero] <;> infer_instance

instance {F : Type} [LinearOrderedField F] (p : Float64 F) : Decidable p.gtOne := by
  cases p <;> simp only [Float64.gtOne] <;> infer_instance

/-- Go `RBO` for any float64 `p`.  The guard is `p < 0 || p > 1`; on a finite `p` that
passes it the three results are those of `RBO`.  The only non-finite `p` that passes the
guard is NaN, and then each of the three results is NaN: `rboMin` returns
`(1-p)/p * (..)`, `rboRes` returns `.. - (1-p)/p*(..)` and `rboExt` returns
`(1-p)/p*(..) + ..`, where `(1-p)/p` is NaN and every loop is bounded by the lengths, not
by `p`. -/
def RBOAt {F : Type} [LinearOrderedField F] [FloorRing F] (ln : F → F) (a b : Node)
    (p : Float64 F) : RBOResult F :=
  if p.ltZero ∨ p.gtOne then
    { min := some 0, res := some 0, ext := some 0, err := some "p must be between 0 and 1" }
  else
    match p with
    | Float64.finite x =>
      { min := rboMin ln a b x 0, res := rboRes ln a b x, ext := rboExt a b x, err := none }
    | _ => { min := none, res := none, ext := none, err := none }

end rbo

/-! ## pkg/graph/graph.go and pkg/graph/pool.go -/

namespace graph

open rbo

/-- Edge is a relationship between two Nodes with a weight. -/
structure Edge (F : Type) where
  Source : String
  Target : String
  similarity : Option F

/-- Edge built from a pair of nodes and the extrapolated value computed for it. -/
def edgeOf {F : Type} [LinearOrderedField F] [FloorRing F] (ln : F → F) (p : F)
    (source target : Node) : Edge F :=
  { Source := source.Label, Target := target.Label, similarity := (RBO ln source target p).ext }

/-- Inner loop of Go `Compute` (`for j, target := range nodes`) for the source at
index `i`: returns the edges and the error of the early return, if any. -/
def computeRow {F : Type} [LinearOrderedField F] [FloorRing F] (ln : F → F) (p : F)
    (i : Nat) (source : Node) : List (Nat × Node) → List (Edge F) → List (Edge F) × Option String
  | [], edges => (edges, none)
  | (j, target) :: rest, edges =>
    if i = j then computeRow ln p i source rest edges
    else
      match (RBO ln source target p).err with
      | some err =>
        (edges, some ("unable to compute edge for " ++ source.Label ++ " -> " ++
          target.Label ++ ": " ++ err))
      | none => computeRow ln p i source rest (edges ++ [edgeOf ln p source target])

/-- Outer loop of Go `Compute` (`for i, source := range nodes`). -/
def computeRows {F : Type} [LinearOrderedField F] [FloorRing F] (ln : F → F) (p : F)
    (nodes : List (Nat × Node)) : List (Nat × Node) → List (Edge F) → List (Edge F) × Option String
  | [], edges => (edges, none)
  | (i, source) :: rest, edges =>
    match computeRow ln p i source nodes edges with
    | (edges, some err) => (edges, some err)
    | (edges, none) => computeRows ln p nodes rest edges

/-- Go `Compute`: the edges and the error (`none` is nil). -/
def Compute {F : Type} [LinearOrderedField F] [FloorRing F] (ln : F → F) (p : F)
    (nodes : List Node) : List (Edge F) × Option String :=
  computeRows ln p nodes.enum nodes.enum []

/-- Task is some work going into the pool. -/
structure Task (F : Type) where
  Source : Node
  Target : Node
  pVal : F

/-- A buffered Go channel: capacity, buffered values (oldest first), closed flag. -/
structure Chan (α : Type) where
  cap : Nat
  buf : List α
  closed : Bool

/-- Pool is a worker pool; `wg` is the counter of the WaitGroup. -/
structure Pool (F : Type) where
  concurrency : Nat
  errors : Chan String
  wg : Int
  work : Chan (Task F)
  results : Chan (Edge F)
  edges : List (Edge F)
  errs : List String

/-- Go `NewPool` (the goroutines it starts are the worker and collector steps below). -/
def NewPool (F : Type) (concurrency : Nat) : Pool F :=
  { concurrency := concurrency
    errors := { cap := 10, buf := [], closed := false }
    wg := 0
    work := { cap := 100, buf := [], closed := false }
    results := { cap := 50, buf := [], closed := false }
    edges := []
    errs := [] }

/-- The send statement a worker executes for a task. -/
inductive Send (F : Type) where
  | toErrors (err : String)
  | toResults (edge : Edge F)

/-- Body of the loop of Go `Pool.startWorker` for the received task `t`: the
branch taken and the value sent. -/
def workerSend {F : Type} [LinearOrderedField F] [FloorRing F] (ln : F → F)
    (t : Task F) : Send F :=
  match (RBO ln t.Source t.Target t.pVal).err with
  | some _ =>
    Send.toErrors ("could not compute RBO for " ++ t.Source.Label ++ " -> " ++ t.Target.Label)
  | none =>
    Send.toResults
      { Source := t.Source.Label, Target := t.Target.Label,
        similarity := (RBO ln t.Source t.Target t.pVal).ext }

/-- Effect of a send statement on the buffers of `p.errors` and `p.results`. -/
def Send.deliver {F : Type} (s : Send F) (errors : List String) (results : List (Edge F)) :
    List String × List (Edge F) :=
  match s with
  | Send.toErrors err => (errors ++ [err], results)
  | Send.toResults edge => (errors, results ++ [edge])

/-- Tasks added by the loops of Go `ComputePool`, in the order of the calls of `Add`. -/
def poolTasks {F : Type} (p : F) (nodes : List Node) : List (Task F) :=
  nodes.enum.flatMap (fun src =>
    (nodes.enum.filter (fun tgt => src.1 ≠ tgt.1)).map
      (fun tgt => { Source := src.2, Target := tgt.2, pVal := p }))

/-- A run of `ComputePool` in progress: the pool, the tasks the main goroutine has
still to `Add`, the sends that workers have computed and not performed yet (one
for each worker that is past its receive), and whether a goroutine has panicked. -/
structure System (F : Type) where
  pool : Pool F
  todo : List (Task F)
  sending : List (Send F)
  panicked : Bool

/-- One atomic step of one goroutine. -/
inductive Action where
  | add
  | doneAdding
  | receive
  | send (i : Nat)
  | collectResult
  | collectError
deriving DecidableEq, Repr

/-- State after the action, or `none` when the goroutine cannot take the step now
(nothing to do, or blocked on a channel).
* `add`: the main goroutine runs `pool.Add` for its next task (`wg.Add(1)`, then a
  send on `work`, which needs room in the buffer);
* `doneAdding`: after its last `Add` the main goroutine closes `work`;
* `receive`: a worker that waits in `for t := range p.work` takes the oldest task
  and runs `rbo.RBO` on it;
* `send i`: the worker holding the `i`-th pending send performs it;
* `collectResult`, `collectError`: a collector takes the oldest value of its
  channel, appends it and calls `wg.Done()`, which panics on a counter that would
  become negative.

The counter is read by `wg.Wait()` only, which the main goroutine calls after its last
`Add`; so taking `wg.Add(1)` together with the send that follows it, and the append of
a collector together with the `Done()` that follows it, hides no state in which
`Results` could return.  A worker that leaves its loop on the closed, drained channel
changes nothing and has no step. -/
def step {F : Type} [LinearOrderedField F] [FloorRing F] (ln : F → F) (s : System F) :
    Action → Option (System F)
  | Action.add =>
    match s.todo with
    | [] => none
    | t :: rest =>
      if s.pool.work.buf.length < s.pool.work.cap then
        some { s with
          todo := rest
          pool := { s.pool with
            wg := s.pool.wg + 1
            work := { s.pool.work with buf := s.pool.work.buf ++ [t] } } }
      else none
  | Action.doneAdding =>
    if s.todo.isEmpty && !s.pool.work.closed then
      some { s with pool := { s.pool with work := { s.pool.work with closed := true } } }
    else none
  | Action.receive =>
    match s.pool.work.buf with
    | [] => none
    | t :: rest =>
      if s.sending.length < s.pool.concurrency then
        some { s with
          sending := s.sending ++ [workerSend ln t]
          pool := { s.pool with work := { s.pool.work with buf := rest } } }
      else none
  | Action.send i =>
    match s.sending.get? i with
    | none => none
    | some (Send.toErrors err) =>
      if s.pool.errors.buf.length < s.pool.errors.cap then
        some { s with
          sending := s.sending.eraseIdx i
          pool := { s.pool with
            errors := { s.pool.errors with
              buf := ((Send.toErrors err).deliver s.pool.errors.buf s.pool.results.buf).1 } } }
      else none
    | some (Send.toResults edge) =>
      if s.pool.results.buf.length < s.pool.results.cap then
        some { s with
          sending := s.sending.eraseIdx i
          pool := { s.pool with
            results := { s.pool.results with
              buf := ((Send.toResults edge).deliver s.pool.errors.buf s.pool.results.buf).2 } } }
      else none
  | Action.collectResult =>
    match s.pool.results.buf with
    | [] => none
    | edge :: rest =>
      some { s with
        panicked := s.panicked || decide (s.pool.wg - 1 < 0)
        pool := { s.pool with
          edges := s.pool.edges ++ [edge]
          wg := s.pool.wg - 1
          results := { s.pool.results with buf := rest } } }
  | Action.collectError =>
    match s.pool.errors.buf with
    | [] => none
    | err :: rest =>
      some { s with
        panicked := s.panicked || decide (s.pool.wg - 1 < 0)
        pool := { s.pool with
          errs := s.pool.errs ++ [err]
          wg := s.pool.wg - 1
          errors := { s.pool.errors with buf := rest } } }

/-- State after a schedule (a sequence of steps), `none` if a step of the
schedule cannot be taken. -/
def run {F : Type} [LinearOrderedField F] [FloorRing F] (ln : F → F) :
    System F → List Action → Option (System F)
  | s, [] => some s
  | s, act :: rest =>
    match step ln s act with
    | none => none
    | some s1 => run ln s1 rest

/-- What a call of `Results` does. -/
inductive ResultsOutcome (F : Type) where
  | blocked
  | indexOutOfRange
  | returned (edges : List (Edge F)) (err : Option String)

/-- Go `Pool.Results`: `wg.Wait()` returns once the counter is zero; the error is
`p.errs[0]` when the CHANNEL `p.errors` has a buffered value (`len(p.errors) > 0`). -/
def Pool.Results {F : Type} (p : Pool F) : ResultsOutcome F :=
  if p.wg ≠ 0 then ResultsOutcome.blocked
  else if p.errors.buf.length > 0 then
    match p.errs with
    | [] => ResultsOutcome.indexOutOfRange
    | err :: _ => ResultsOutcome.returned p.edges (some err)
  else ResultsOutcome.returned p.edges none

/-- State in which Go `ComputePool` starts its loops: `pool := NewPool(50)`, and
every task still to add. -/
def ComputePool.start {F : Type} (p : F) (nodes : List Node) : System F :=
  { pool := NewPool F 50, todo := poolTasks p nodes, sending := [], panicked := false }

/-- What `ComputePool` returns from state `s`: it reaches `pool.Results()` after
its last `Add` and `DoneAdding`. -/
def ComputePool.result {F : Type} (s : System F) : ResultsOutcome F :=
  if s.todo.isEmpty && s.pool.work.closed then s.pool.Results else ResultsOutcome.blocked

/-- Number of steps that can still be taken from a state (an upper bound). -/
def System.fuel {F : Type} (s : System F) : Nat :=
  5 * s.todo.length + 4 * s.pool.work.buf.length + 3 * s.sending.length +
    2 * (s.pool.results.buf.length + s.pool.errors.buf.length) +
    (if s.pool.work.closed then 0 else 1)

/-- The ordered pairs `(i, j)` with `i ≠ j` of indices below `n`, in row-major order
(the reference enumeration for the batch-completeness claim). -/
def orderedPairs (n : Nat) : List (Nat × Nat) :=
  (List.range n).flatMap (fun i =>
    ((List.range n).filter (fun j => decide (i ≠ j))).map (fun j => (i, j)))

/-- Every outcome of a run, wherever it currently is: appended to `edges` or `errs`,
buffered in `results` or `errors`, held by a worker, or still to be computed from a
task that is queued in `work` or not added yet. -/
def System.outcomes {F : Type} [LinearOrderedField F] [FloorRing F] (ln : F → F)
    (s : System F) : Multiset (Send F) :=
  Multiset.ofList (s.pool.edges.map Send.toResults ++ s.pool.errs.map Send.toErrors ++
    s.pool.results.buf.map Send.toResults ++ s.pool.errors.buf.map Send.toErrors ++
    s.sending ++ s.pool.work.buf.map (workerSend ln) ++ s.todo.map (workerSend ln))

/-- Invariant of the runs of a pool: no outcome is lost or made up, the WaitGroup
counter is the number of tasks added and not collected yet, `work` is closed only
after the last `Add`, nothing has panicked, and the pool has a worker and buffers. -/
structure Inv {F : Type} [LinearOrderedField F] [FloorRing F] (ln : F → F)
    (all : Multiset (Send F)) (s : System F) : Prop where
  outcomes_eq : s.outcomes ln = all
  wg_eq : s.pool.wg = ((s.pool.work.buf.length + s.sending.length +
    s.pool.results.buf.length + s.pool.errors.buf.length : Nat) : Int)
  closed_todo : s.pool.work.closed = true → s.todo = []
  not_panicked : s.panicked = false
  concurrency_pos : 0 < s.pool.concurrency
  work_cap_pos : 0 < s.pool.work.cap
  results_cap_pos : 0 < s.pool.results.cap
  errors_cap_pos : 0 < s.pool.errors.cap

/-- A schedule of a run on two nodes, in which the second task overtakes the first. -/
def exampleSchedule : List Action :=
  [Action.add, Action.receive, Action.add, Action.doneAdding, Action.receive, Action.send 1,
    Action.collectResult, Action.send 0, Action.collectResult]

/-- The state that `exampleSchedule` leads to on the nodes `a = [x, y]`, `b = [y, x]`
at `p = 0.9`. -/
def exampleFinal : System ℚ :=
  { pool :=
      { concurrency := 50
        errors := { cap := 10, buf := [], closed := false }
        wg := 0
        work := { cap := 100, buf := [], closed := true }
        results := { cap := 50, buf := [], closed := false }
        edges := [edgeOf (fun _ => 0) (9 / 10) ⟨"b", ["y", "x"]⟩ ⟨"a", ["x", "y"]⟩,
          edgeOf (fun _ => 0) (9 / 10) ⟨"a", ["x", "y"]⟩ ⟨"b", ["y", "x"]⟩]
        errs := [] }
    todo := []
    sending := []
    panicked := false }

/-- Go `pair`: a work item of `ComputeParallel`, the indices of two nodes. -/
structure pair where
  source : Nat
  target : Nat
deriving DecidableEq, Repr

/-- The iterations of the producer loop of Go `ComputeParallel` that reach its send, in
the order of the loop: `for i := range nodes`, inside it
`for j := i + 1; j < len(nodes); j++`, and `continue` on `i == j`.  Each of them
increments `jobs` and then sends `pair{i, j}` on `work`. -/
def loopItems (n : Nat) : List pair :=
  (List.range n).flatMap (fun i =>
    ((List.range' (i + 1) (n - (i + 1))).filter (fun j => decide (¬ i = j))).map
      (fun j => { source := i, target := j }))

/-- Edge that a worker of `ComputeParallel` builds for the work item `w`, from
`nodes[w.source]` and `nodes[w.target]`; it is sent whether or not `RBO` failed (after
a failure the similarity is the zero value that `RBO` leaves in `ext`). -/
def parallelEdge {F : Type} [LinearOrderedField F] [FloorRing F] (ln : F → F) (p : F)
    (nodes : List Node) (w : pair) : Edge F :=
  edgeOf ln p (nodes.getD w.source ⟨"", []⟩) (nodes.getD w.target ⟨"", []⟩)

/-- Go `ComputeParallel` while its producer loop runs: the iterations still to run, the
item of the current iteration between `jobs++` and its send, `jobs`, the channel `work`,
the edges that workers have computed and not sent yet (one for each worker past its
receive), the channel `results`, the WaitGroup counter, and (history) the items sent on
`work` so far.  The goroutine that reads `results` is started only after the loop
(`graph.go`, after `close(work)`), so during the loop `results` has no reader. -/
structure Parallel (F : Type) where
  maxWorkers : Nat
  todo : List pair
  pending : Option pair
  jobs : Nat
  work : Chan pair
  busy : List (Edge F)
  results : Chan (Edge F)
  wg : Int
  sent : List pair

/-- One atomic step of the main goroutine or of a worker of `ComputeParallel`. -/
inductive ParallelAction where
  | iterate
  | enqueue
  | receive
  | send (i : Nat)
deriving DecidableEq, Repr

/-- State after the action, or `none` when the goroutine cannot take the step now.
* `iterate`: the loop starts its next iteration that reaches the send: `jobs++` and
  `p := pair{i, j}`;
* `enqueue`: the send `work <- p` of the current iteration, which needs room in the
  buffer of `work`;
* `receive`: a worker waiting in `for w := range work` takes the oldest item and
  computes its edge;
* `send i`: the worker holding the `i`-th computed edge performs `results <- Edge{..}`,
  which needs room in the buffer of `results`, and then `wg.Add(1)`. -/
def stepParallel {F : Type} [LinearOrderedField F] [FloorRing F] (ln : F → F) (p : F)
    (nodes : List Node) (s : Parallel F) : ParallelAction → Option (Parallel F)
  | ParallelAction.iterate =>
    match s.pending, s.todo with
    | none, w :: rest => some { s with todo := rest, pending := some w, jobs := s.jobs + 1 }
    | _, _ => none
  | ParallelAction.enqueue =>
    match s.pending with
    | none => none
    | some w =>
      if s.work.buf.length < s.work.cap then
        some { s with
          pending := none
          work := { s.work with buf := s.work.buf ++ [w] }
          sent := s.sent ++ [w] }
      else none
  | ParallelAction.receive =>
    match s.work.buf with
    | [] => none
    | w :: rest =>
      if s.busy.length < s.maxWorkers then
        some { s with
          busy := s.busy ++ [parallelEdge ln p nodes w]
          work := { s.work with buf := rest } }
      else none
  | ParallelAction.send i =>
    match s.busy.get? i with
    | none => none
    | some edge =>
      if s.results.buf.length < s.results.cap then
        some { s with
          busy := s.busy.eraseIdx i
          results := { s.results with buf := s.results.buf ++ [edge] }
          wg := s.wg + 1 }
      else none

/-- State after a schedule of `ComputeParallel`, `none` if a step cannot be taken. -/
def runParallel {F : Type} [LinearOrderedField F] [FloorRing F] (ln : F → F) (p : F)
    (nodes : List Node) : Parallel F → List ParallelAction → Option (Parallel F)
  | s, [] => some s
  | s, act :: rest =>
    match stepParallel ln p nodes s act with
    | none => none
    | some s1 => runParallel ln p nodes s1 rest

/-- State in which `ComputeParallel` enters its producer loop, with `maxWorkers`
(`runtime.NumCPU()`) workers started and the channels `work := make(chan pair, 5)` and
`results := make(chan Edge, 5)` empty. -/
def ComputeParallel.start (F : Type) (nodes : List Node) (maxWorkers : Nat) : Parallel F :=
  { maxWorkers := maxWorkers
    todo := loopItems nodes.length
    pending := none
    jobs := 0
    work := { cap := 5, buf := [], closed := false }
    busy := []
    results := { cap := 5, buf := [], closed := false }
    wg := 0
    sent := [] }

/-- Bookkeeping kept by every step of `ComputeParallel` during its producer loop: the
items sent, the current one and the iterations still to run make up the loop; every
item sent is still in `work`, with a worker or in `results`; the buffers and the
workers are within their bounds; `jobs` counts the items sent and the current one. -/
structure ParallelInv {F : Type} (n : Nat) (s : Parallel F) : Prop where
  items : loopItems n = s.sent ++ s.pending.toList ++ s.todo
  count : s.sent.length = s.work.buf.length + s.busy.length + s.results.buf.length
  work_le : s.work.buf.length ≤ 5
  busy_le : s.busy.length ≤ s.maxWorkers
  results_le : s.results.buf.length ≤ 5
  jobs_eq : s.jobs = s.sent.length + s.pending.toList.length
  work_cap : s.work.cap = 5
  results_cap : s.results.cap = 5

/-- Six nodes for a run of `ComputeParallel` with one worker. -/
def sixNodes : List Node :=
  [⟨"a", ["x"]⟩, ⟨"b", ["x"]⟩, ⟨"c", ["x"]⟩, ⟨"d", ["x"]⟩, ⟨"e", ["x"]⟩, ⟨"f", ["x"]⟩]

/-- A schedule of `ComputeParallel` on six nodes with one worker: five items go all the
way into `results`, a sixth stays with the worker, five more fill `work`, and the loop
starts its twelfth iteration. -/
def blockingSchedule : List ParallelAction :=
  [ParallelAction.iterate, ParallelAction.enqueue, ParallelAction.receive, ParallelAction.send 0,
   ParallelAction.iterate, ParallelAction.enqueue, ParallelAction.receive, ParallelAction.send 0,
   ParallelAction.iterate, ParallelAction.enqueue, ParallelAction.receive, ParallelAction.send 0,
   ParallelAction.iterate, ParallelAction.enqueue, ParallelAction.receive, ParallelAction.send 0,
   ParallelAction.iterate, ParallelAction.enqueue, ParallelAction.receive, ParallelAction.send 0,
   ParallelAction.iterate, ParallelAction.enqueue, ParallelAction.receive,
   ParallelAction.iterate, ParallelAction.enqueue, ParallelAction.iterate, ParallelAction.enqueue,
   ParallelAction.iterate, ParallelAction.enqueue, ParallelAction.iterate, ParallelAction.enqueue,
   ParallelAction.iterate, ParallelAction.enqueue, ParallelAction.iterate]

/-- The state that `blockingSchedule` leads to at `p = 0.9`: eleven of the fifteen items
sent, the twelfth waiting for room in `work`. -/
def blockedState : Parallel ℚ :=
  { maxWorkers := 1
    todo := [⟨3, 4⟩, ⟨3, 5⟩, ⟨4, 5⟩]
    pending := some ⟨2, 5⟩
    jobs := 12
    work := { cap := 5, buf := [⟨1, 3⟩, ⟨1, 4⟩, ⟨1, 5⟩, ⟨2, 3⟩, ⟨2, 4⟩], closed := false }
    busy := [parallelEdge (fun _ => 0) (9 / 10) sixNodes ⟨1, 2⟩]
    results :=
      { cap := 5
        buf := [parallelEdge (fun _ => 0) (9 / 10) sixNodes ⟨0, 1⟩,
          parallelEdge (fun _ => 0) (9 / 10) sixNodes ⟨0, 2⟩,
          parallelEdge (fun _ => 0) (9 / 10) sixNodes ⟨0, 3⟩,
          parallelEdge (fun _ => 0) (9 / 10) sixNodes ⟨0, 4⟩,
          parallelEdge (fun _ => 0) (9 / 10) sixNodes ⟨0, 5⟩]
        closed := false }
    wg := 5
    sent := [⟨0, 1⟩, ⟨0, 2⟩, ⟨0, 3⟩, ⟨0, 4⟩, ⟨0, 5⟩, ⟨1, 2⟩, ⟨1, 3⟩, ⟨1, 4⟩, ⟨1, 5⟩, ⟨2, 3⟩,
      ⟨2, 4⟩] }

/-- A pool right after `NewPool(concurrency)`, with the tasks that its owner is going
to `Add`, in that order, before `DoneAdding` and `Results`. -/
def System.init (F : Type) (concurrency : Nat) (tasks : List (Task F)) : System F :=
  { pool := NewPool F concurrency, todo := tasks, sending := [], panicked := false }

/-- Bookkeeping kept by every step of a pool that is to be given `tasks`: the tasks
still to add are a tail of `tasks`, no outcome is lost or made up, the WaitGroup counter
is the number of tasks that are queued, held by a worker or buffered in a channel, and
nothing has panicked. -/
structure Counted {F : Type} [LinearOrderedField F] [FloorRing F] (ln : F → F)
    (tasks : List (Task F)) (s : System F) : Prop where
  added_todo : ∃ added, tasks = added ++ s.todo
  outcomes_eq : s.outcomes ln = Multiset.ofList (tasks.map (workerSend ln))
  wg_eq : s.pool.wg = ((s.pool.work.buf.length + s.sending.length +
    s.pool.results.buf.length + s.pool.errors.buf.length : Nat) : Int)
  not_panicked : s.panicked = false

/-- A schedule of a run on two nodes in which both tasks fail. -/
def failingSchedule : List Action :=
  [Action.add, Action.add, Action.doneAdding, Action.receive, Action.receive, Action.send 0,
    Action.send 0, Action.collectError, Action.collectError]

/-- The state that `failingSchedule` leads to on the nodes `a = [x, y]`, `b = [y, x]`
at `p = 1.1`. -/
def failingFinal : System ℚ :=
  { pool :=
      { concurrency := 50
        errors := { cap := 10, buf := [], closed := false }
        wg := 0
        work := { cap := 100, buf := [], closed := true }
        results := { cap := 50, buf := [], closed := false }
        edges := []
        errs := ["could not compute RBO for a -> b", "could not compute RBO for b -> a"] }
    todo := []
    sending := []
    panicked := false }

/-- Inner loop of Go `Compute` for any float64 `p` (see `computeRow`). -/
def computeRowAt {F : Type} [LinearOrderedField F] [FloorRing F] (ln : F → F) (p : Float64 F)
    (i : Nat) (source : Node) : List (Nat × Node) → List (Edge F) → List (Edge F) × Option String
  | [], edges => (edges, none)
  | (j, target) :: rest, edges =>
    if i = j then computeRowAt ln p i source rest edges
    else
      match (RBOAt ln source target p).err with
      | some err =>
        (edges, some ("unable to compute edge for " ++ source.Label ++ " -> " ++
          target.Label ++ ": " ++ err))
      | none =>
        computeRowAt ln p i source rest
          (edges ++ [{ Source := source.Label, Target := target.Label,
                       similarity := (RBOAt ln source target p).ext }])

/-- Outer loop of Go `Compute` for any float64 `p` (see `computeRows`). -/
def computeRowsAt {F : Type} [LinearOrderedField F] [FloorRing F] (ln : F → F) (p : Float64 F)
    (nodes : List (Nat × Node)) : List (Nat × Node) → List (Edge F) → List (Edge F) × Option String
  | [], edges => (edges, none)
  | (i, source) :: rest, edges =>
    match computeRowAt ln p i source nodes edges with
    | (edges, some err) => (edges, some err)
    | (edges, none) => computeRowsAt ln p nodes rest edges

/-- Go `Compute` for any float64 `p`, NaN and the infinities included. -/
def ComputeAt {F : Type} [LinearOrderedField F] [FloorRing F] (ln : F → F) (p : Float64 F)
    (nodes : List Node) : List (Edge F) × Option String :=
  computeRowsAt ln p nodes.enum nodes.enum []

end graph

/-! ## Properties of pkg/rbo -/

namespace rbo

theorem min_one (d n : Int) : min d [n] = if n < d then n else d := rfl

theorem min_two (d n m : Int) :
    min d [n, m] = if m < (if n < d then n else d) then m else (if n < d then n else d) := rfl

theorem min_one_eq (d n : Int) : min d [n] = Min.min d n := by
  rw [min_one]
  split_ifs with h
  · exact (min_eq_right h.le).symm
  · exact (min_eq_left (not_lt.mp h)).symm

theorem min_two_eq (d n m : Int) : min d [n, m] = Min.min (Min.min d n) m := by
  rw [min_two]
  split_ifs with h1 h2 h2 <;> omega

theorem intersection_foldl (a b acc : List String) :
    b.foldl (fun intersect m => if m ∈ a then intersect ++ [m] else intersect) acc
      = acc ++ b.filter (fun m => decide (m ∈ a)) := by
  induction b generalizing acc with
  | nil => simp
  | cons m b ih =>
    rw [List.foldl_cons, ih]
    by_cases h : m ∈ a <;> simp [h]

theorem intersection_eq (a b : List String) :
    intersection a b = List.replicate (a.length * 2) "" ++ b.filter (fun m => decide (m ∈ a)) := by
  unfold intersection
  exact intersection_foldl a b _

theorem intersection_length (a b : List String) :
    (intersection a b).length = a.length * 2 + (b.filter (fun m => decide (m ∈ a))).length := by
  rw [intersection_eq, List.length_append, List.length_replicate]

theorem rawOverlap_nat (a b : Node) (d : Nat) :
    rawOverlap a b (d : Int) =
      ((((a.Members.take d).length * 2 +
          ((b.Members.take d).filter (fun m => decide (m ∈ a.Members.take d))).length : Nat) : Int),
        ((a.Members.take d).length : Int), ((b.Members.take d).length : Int)) := by
  have ha : a.Set.take (min (d : Int) [a.Length]).toNat = a.Members.take d := by
    rw [min_one_eq]
    simp only [SimpleContainer.Set, SimpleContainer.Length]
    rw [← Nat.cast_min, Int.toNat_ofNat, List.take_eq_take]
    simp
  have hb : b.Set.take (min (d : Int) [b.Length]).toNat = b.Members.take d := by
    rw [min_one_eq]
    simp only [SimpleContainer.Set, SimpleContainer.Length]
    rw [← Nat.cast_min, Int.toNat_ofNat, List.take_eq_take]
    simp
  simp only [rawOverlap, ha, hb, intersection_length]

theorem filter_mem_self (l : List String) : l.filter (fun m => decide (m ∈ l)) = l := by
  rw [List.filter_eq_self]
  intro m hm
  simpa using hm

theorem agreement_self_nat {F : Type} [LinearOrderedField F] (a : Node) (d : Nat)
    (ha : a.Members ≠ []) (hd : 1 ≤ d) : (agreement a a (d : Int) : Option F) = some 3 := by
  have hlen : 0 < (a.Members.take d).length := by
    rw [List.length_take]
    exact lt_min (by omega) (List.length_pos.mpr ha)
  simp only [agreement, rawOverlap_nat, filter_mem_self, ofInt, fdiv]
  have hne : ((((a.Members.take d).length : Int) + ((a.Members.take d).length : Int) : Int) : F) ≠ 0 := by
    have : (0 : Int) < ((a.Members.take d).length : Int) + ((a.Members.take d).length : Int) := by
      omega
    exact_mod_cast this.ne'
  rw [if_neg hne]
  congr 1
  rw [div_eq_iff hne]
  push_cast
  ring

theorem RBO_ext_of_valid {F : Type} [LinearOrderedField F] [FloorRing F] (ln : F → F)
    (a b : Node) (p : F) (hp0 : 0 ≤ p) (hp1 : p ≤ 1) :
    (RBO ln a b p).err = none ∧ (RBO ln a b p).ext = rboExt a b p := by
  have hp : ¬ (p < 0 ∨ p > 1) := by
    rintro (h | h)
    · exact absurd hp0 (not_le.mpr h)
    · exact absurd hp1 (not_le.mpr h)
  simp only [RBO, if_neg hp, and_self]

/-- C1: `RBO(a, b, p)` returns a non-nil error exactly when `p < 0` or `p > 1`
(the error of the parameter check, and no other); it fails for `p = -0.1` and
`p = 1.1` and succeeds for `p = 0` and `p = 1`. -/
theorem RBO_error_iff_p_out_of_range {F : Type} [LinearOrderedField F] [FloorRing F]
    (ln : F → F) (a b : Node) (p : F) :
    ((RBO ln a b p).err ≠ none ↔ (p < 0 ∨ p > 1)) ∧
    (RBO ln a b p).err = (if p < 0 ∨ p > 1 then some "p must be between 0 and 1" else none) ∧
    (RBO ln a b (-1 / 10)).err ≠ none ∧ (RBO ln a b (11 / 10)).err ≠ none ∧
    (RBO ln a b 0).err = none ∧ (RBO ln a b 1).err = none := by
  refine ⟨?_, ?_, ?_, ?_, ?_, ?_⟩
  · by_cases h : p < 0 ∨ p > 1 <;> simp [RBO, h]
  · by_cases h : p < 0 ∨ p > 1 <;> simp [RBO, h]
  · have h : (-1 / 10 : F) < 0 ∨ (-1 / 10 : F) > 1 := Or.inl (by norm_num)
    simp only [RBO, if_pos h]
    simp
  · have h : (11 / 10 : F) < 0 ∨ (11 / 10 : F) > 1 := Or.inr (by norm_num)
    simp only [RBO, if_pos h]
    simp
  · have h : ¬ ((0 : F) < 0 ∨ (0 : F) > 1) := by norm_num
    simp only [RBO, if_neg h]
  · have h : ¬ ((1 : F) < 0 ∨ (1 : F) > 1) := by norm_num
    simp only [RBO, if_neg h]

/-- C2 (code at the inputs of `TestAgreement` and of the scenario): for
`[a,b,c,d,e]` against `[a,b,d,c,f]` the code gives agreement 3, 8/3, 3 and 14/5 at
depths 1, 3, 4 and 5 (the claim and the test: 1, 2/3, 1 and 0.8), and for `[a,b,c,d]`
against `[c,a,b,d]` it gives 2 at depth 1 and 3 at depth 4 (the claim: 0 and 1). -/
theorem agreement_at_test_inputs :
    (agreement ⟨"a", ["a", "b", "c", "d", "e"]⟩ ⟨"b", ["a", "b", "d", "c", "f"]⟩ 1 : Option ℚ)
      = some 3 ∧
    (agreement ⟨"a", ["a", "b", "c", "d", "e"]⟩ ⟨"b", ["a", "b", "d", "c", "f"]⟩ 3 : Option ℚ)
      = some (8 / 3) ∧
    (agreement ⟨"a", ["a", "b", "c", "d", "e"]⟩ ⟨"b", ["a", "b", "d", "c", "f"]⟩ 4 : Option ℚ)
      = some 3 ∧
    (agreement ⟨"a", ["a", "b", "c", "d", "e"]⟩ ⟨"b", ["a", "b", "d", "c", "f"]⟩ 5 : Option ℚ)
      = some (14 / 5) ∧
    (agreement ⟨"a", ["a", "b", "c", "d"]⟩ ⟨"b", ["c", "a", "b", "d"]⟩ 1 : Option ℚ) = some 2 ∧
    (agreement ⟨"a", ["a", "b", "c", "d"]⟩ ⟨"b", ["c", "a", "b", "d"]⟩ 4 : Option ℚ) = some 3 := by
  refine ⟨?_, ?_, ?_, ?_, ?_, ?_⟩ <;>
  · simp [agreement, rawOverlap, intersection_length, min_one, SimpleContainer.Length,
      SimpleContainer.Set, ofInt, fdiv]
    try norm_num

/-- C3 (code on two copies of a list): for every non-empty list `a` and every depth
`d ≥ 1` the code gives `agreement(a, a, d) = 3`, which is above the bound 1 of the
claim. -/
theorem agreement_self_eq_three {F : Type} [LinearOrderedField F] (a : Node) (d : Int)
    (ha : a.Members ≠ []) (hd : 1 ≤ d) :
    (agreement a a d : Option F) = some 3 ∧ ¬ ((3 : F) ≤ 1) := by
  obtain ⟨n, rfl⟩ := Int.eq_ofNat_of_zero_le (by omega : 0 ≤ d)
  exact ⟨agreement_self_nat a n ha (by omega), by norm_num⟩

theorem agreement_self_eq_three_witness :
    (⟨"a", ["a", "b", "c", "d", "e"]⟩ : Node).Members ≠ [] ∧ (1 : Int) ≤ 1 ∧
    (agreement ⟨"a", ["a", "b", "c", "d", "e"]⟩ ⟨"a", ["a", "b", "c", "d", "e"]⟩ 1 : Option ℚ)
      = some 3 ∧ ¬ ((3 : ℚ) ≤ 1) :=
  ⟨by simp, by decide,
    agreement_self_eq_three ⟨"a", ["a", "b", "c", "d", "e"]⟩ 1 (by simp) (by decide)⟩

set_option maxHeartbeats 2000000 in
/-- C4 (code at the scenario of the claim): for two identical lists `[a,b,c,d,e]` at
`p = 0.9` the extrapolated value returned by `RBO` is 3, not 1; it is 3 at `p = 1` as
well, and not a finite number at `p = 0`. -/
theorem RBO_ext_identical_lists (ln : ℚ → ℚ) :
    (RBO ln ⟨"a", ["a", "b", "c", "d", "e"]⟩ ⟨"b", ["a", "b", "c", "d", "e"]⟩ (9 / 10)).ext
      = some 3 ∧
    (RBO ln ⟨"a", ["a", "b", "c", "d", "e"]⟩ ⟨"b", ["a", "b", "c", "d", "e"]⟩ 1).ext = some 3 ∧
    (RBO ln ⟨"a", ["a", "b", "c", "d", "e"]⟩ ⟨"b", ["a", "b", "c", "d", "e"]⟩ 0).ext = none := by
  rw [(RBO_ext_of_valid ln _ _ (9 / 10) (by norm_num) (by norm_num)).2,
    (RBO_ext_of_valid ln _ _ 1 (by norm_num) (by norm_num)).2,
    (RBO_ext_of_valid ln _ _ 0 (by norm_num) (by norm_num)).2]
  refine ⟨?_, ?_, ?_⟩
  · simp [rboExt, orderByLength, overlap, agreement, rawOverlap, intersection_length, min_one,
      min_two, SimpleContainer.Length, SimpleContainer.Set, ofInt, fdiv, upto, List.range_succ,
      fmul, fadd, fsub, fpow]
    norm_num
  · simp [rboExt, orderByLength, overlap, agreement, rawOverlap, intersection_length,
      min_one, min_two, SimpleContainer.Length, SimpleContainer.Set, ofInt, fdiv, upto,
      List.range_succ, fmul, fadd, fsub, fpow]
    norm_num
  · simp [rboExt, orderByLength, overlap, agreement, rawOverlap, intersection_length,
      min_one, min_two, SimpleContainer.Length, SimpleContainer.Set, ofInt, fdiv, upto,
      List.range_succ, fmul, fadd, fsub, fpow]

set_option maxHeartbeats 2000000 in
/-- C5 (code on two duplicate-free lists of different lengths): at `p = 1/2` the
extrapolated value of `RBO([x], [x,y], p)` is 3 and that of `RBO([x,y], [x], p)` is
7/2, so the two orders of the arguments give different values. -/
theorem RBO_ext_not_symmetric (ln : ℚ → ℚ) :
    (RBO ln ⟨"a", ["x"]⟩ ⟨"b", ["x", "y"]⟩ (1 / 2)).ext = some 3 ∧
    (RBO ln ⟨"b", ["x", "y"]⟩ ⟨"a", ["x"]⟩ (1 / 2)).ext = some (7 / 2) ∧
    (RBO ln ⟨"a", ["x"]⟩ ⟨"b", ["x", "y"]⟩ (1 / 2)).ext ≠
      (RBO ln ⟨"b", ["x", "y"]⟩ ⟨"a", ["x"]⟩ (1 / 2)).ext := by
  have h1 : (RBO ln ⟨"a", ["x"]⟩ ⟨"b", ["x", "y"]⟩ (1 / 2)).ext = some 3 := by
    rw [(RBO_ext_of_valid ln _ _ (1 / 2) (by norm_num) (by norm_num)).2]
    simp [rboExt, orderByLength, overlap, agreement, rawOverlap, intersection_length, min_one,
      min_two, SimpleContainer.Length, SimpleContainer.Set, ofInt, fdiv, upto, List.range_succ,
      fmul, fadd, fsub, fpow]
    norm_num
  have h2 : (RBO ln ⟨"b", ["x", "y"]⟩ ⟨"a", ["x"]⟩ (1 / 2)).ext = some (7 / 2) := by
    rw [(RBO_ext_of_valid ln _ _ (1 / 2) (by norm_num) (by norm_num)).2]
    simp [rboExt, orderByLength, overlap, agreement, rawOverlap, intersection_length, min_one,
      min_two, SimpleContainer.Length, SimpleContainer.Set, ofInt, fdiv, upto, List.range_succ,
      fmul, fadd, fsub, fpow]
    norm_num
  refine ⟨h1, h2, ?_⟩
  rw [h1, h2]
  norm_num

/-- C6, as stated, fails: with an empty first list and `p = 1/2`, `RBO` returns a nil
error. -/
theorem RBO_empty_list_no_error :
    (RBO (fun _ => (0 : ℚ)) ⟨"a", []⟩ ⟨"b", ["x"]⟩ (1 / 2)).err = none := by
  have h : ¬ ((1 / 2 : ℚ) < 0 ∨ (1 / 2 : ℚ) > 1) := by norm_num
  simp only [RBO, if_neg h]

theorem orderByLength_fst_length (a b : Node) (h : a.Length = 0 ∨ b.Length = 0) :
    (orderByLength a b).1.Length = 0 := by
  have ha : 0 ≤ a.Length := by simp [SimpleContainer.Length]
  have hb : 0 ≤ b.Length := by simp [SimpleContainer.Length]
  unfold orderByLength
  split_ifs with hle
  · show a.Length = 0
    omega
  · show b.Length = 0
    omega

theorem fdiv_zero {F : Type} [LinearOrderedField F] (x : Option F) :
    fdiv x (ofInt 0) = none := by
  cases x <;> simp [fdiv, ofInt]

theorem fadd_none {F : Type} [LinearOrderedField F] (x : Option F) : fadd x none = none := by
  cases x <;> rfl

theorem fmul_none {F : Type} [LinearOrderedField F] (x : Option F) : fmul x none = none := by
  cases x <;> rfl

/-- C6, amended: for every `p` in `[0, 1]` and every pair of lists of which at least
one has length 0, `RBO(a, b, p)` returns a nil error (there is no error for degenerate
input), and the extrapolated value it returns is not a finite number: the ratio term
dividing by the zero length is computed. -/
theorem RBO_empty_list {F : Type} [LinearOrderedField F] [FloorRing F] (ln : F → F)
    (a b : Node) (p : F) (hp0 : 0 ≤ p) (hp1 : p ≤ 1) (h : a.Length = 0 ∨ b.Length = 0) :
    (RBO ln a b p).err = none ∧ (RBO ln a b p).ext = none := by
  have hs := orderByLength_fst_length a b h
  refine ⟨(RBO_ext_of_valid ln a b p hp0 hp1).1, ?_⟩
  rw [(RBO_ext_of_valid ln a b p hp0 hp1).2]
  simp only [rboExt, hs, fdiv_zero, fadd_none, fmul_none]

theorem RBO_empty_list_witness :
    (0 : ℚ) ≤ 1 / 2 ∧ (1 / 2 : ℚ) ≤ 1 ∧
    ((⟨"a", []⟩ : Node).Length = 0 ∨ (⟨"b", ["x"]⟩ : Node).Length = 0) ∧
    (RBO (fun _ => (0 : ℚ)) ⟨"a", []⟩ ⟨"b", ["x"]⟩ (1 / 2)).err = none ∧
    (RBO (fun _ => (0 : ℚ)) ⟨"a", []⟩ ⟨"b", ["x"]⟩ (1 / 2)).ext = none :=
  ⟨by norm_num, by norm_num, Or.inl rfl,
    RBO_empty_list (fun _ => (0 : ℚ)) ⟨"a", []⟩ ⟨"b", ["x"]⟩ (1 / 2) (by norm_num) (by norm_num)
      (Or.inl rfl)⟩

theorem trueRBO_term_le (A B : ℕ → String) (p : ℝ) (hp0 : 0 ≤ p) (k : ℕ) :
    0 ≤ p ^ k *
      ((((List.range (k + 1)).map A).toFinset ∩ ((List.range (k + 1)).map B).toFinset).card : ℝ)
        / ((k : ℝ) + 1) ∧
    p ^ k *
      ((((List.range (k + 1)).map A).toFinset ∩ ((List.range (k + 1)).map B).toFinset).card : ℝ)
        / ((k : ℝ) + 1) ≤ p ^ k := by
  have hk : (0 : ℝ) < (k : ℝ) + 1 := by positivity
  have hcard : ((((List.range (k + 1)).map A).toFinset ∩
      ((List.range (k + 1)).map B).toFinset).card : ℝ) ≤ (k : ℝ) + 1 := by
    have h1 : (((List.range (k + 1)).map A).toFinset ∩
        ((List.range (k + 1)).map B).toFinset).card ≤ k + 1 := by
      calc (((List.range (k + 1)).map A).toFinset ∩ ((List.range (k + 1)).map B).toFinset).card
          ≤ ((List.range (k + 1)).map A).toFinset.card :=
            Finset.card_le_card Finset.inter_subset_left
        _ ≤ ((List.range (k + 1)).map A).length := List.toFinset_card_le _
        _ = k + 1 := by simp
    exact_mod_cast h1
  constructor
  · positivity
  · rw [mul_div_assoc]
    calc p ^ k * (_ / ((k : ℝ) + 1)) ≤ p ^ k * 1 := by
          apply mul_le_mul_of_nonneg_left _ (pow_nonneg hp0 k)
          rw [div_le_one hk]
          exact hcard
      _ = p ^ k := mul_one _

theorem trueRBO_le_one (A B : ℕ → String) (p : ℝ) (hp0 : 0 ≤ p) (hp1 : p < 1) :
    trueRBO A B p ≤ 1 := by
  have hgeo : Summable (fun k : ℕ => p ^ k) := summable_geometric_of_lt_one hp0 hp1
  have hsum : Summable (fun k : ℕ => p ^ k *
      ((((List.range (k + 1)).map A).toFinset ∩ ((List.range (k + 1)).map B).toFinset).card : ℝ)
        / ((k : ℝ) + 1)) :=
    Summable.of_nonneg_of_le (fun k => (trueRBO_term_le A B p hp0 k).1)
      (fun k => (trueRBO_term_le A B p hp0 k).2) hgeo
  have hle := tsum_le_tsum (fun k => (trueRBO_term_le A B p hp0 k).2) hsum hgeo
  rw [tsum_geometric_of_lt_one hp0 hp1] at hle
  have h1p : 0 < 1 - p := by linarith
  unfold trueRBO
  calc (1 - p) * _ ≤ (1 - p) * (1 - p)⁻¹ := mul_le_mul_of_nonneg_left hle h1p.le
    _ = 1 := mul_inv_cancel₀ h1p.ne'

theorem rboMin_disjoint_singletons :
    rboMin Real.log ⟨"a", ["x"]⟩ ⟨"b", ["y"]⟩ (1 / 2 : ℝ) 0 = some (2 * Real.log 2) := by
  simp [rboMin, overlap, agreement, rawOverlap, intersection_length, min_one, min_two, upto,
    fmul, fdiv, fsub, fadd, flog, fpow, ofInt, SimpleContainer.Length, SimpleContainer.Set,
    List.range_succ]
  norm_num
  rw [one_div, Real.log_inv]
  ring

/-- C7 (code on two disjoint one-element lists): at `p = 1/2` the `min` value returned
by `RBO([x], [y], p)` is `2 * ln 2`, which is above 1, while the true rank-biased
overlap of any two rankings is at most 1; so there are duplicate-free infinite rankings
with prefixes `[x]` and `[y]` whose true rank-biased overlap is below the returned
lower bound. -/
theorem RBO_min_above_true_overlap :
    ∃ v : ℝ, (RBO Real.log ⟨"a", ["x"]⟩ ⟨"b", ["y"]⟩ (1 / 2 : ℝ)).min = some v ∧
      ∃ A B : ℕ → String, Function.Injective A ∧ Function.Injective B ∧
        A 0 = "x" ∧ B 0 = "y" ∧ trueRBO A B (1 / 2) < v := by
  have hp : ¬ ((1 / 2 : ℝ) < 0 ∨ (1 / 2 : ℝ) > 1) := by norm_num
  have hlog : (1 : ℝ) < 2 * Real.log 2 := by
    have := Real.log_two_gt_d9
    norm_num at this
    linarith
  refine ⟨2 * Real.log 2, ?_, fun n => String.mk (List.replicate n 'a' ++ ['x']),
    fun n => String.mk (List.replicate n 'b' ++ ['y']), ?_, ?_, rfl, rfl, ?_⟩
  · simp only [RBO, if_neg hp]
    exact rboMin_disjoint_singletons
  · intro n m h
    have h2 := congrArg (fun s : String => s.data.length) h
    simpa using h2
  · intro n m h
    have h2 := congrArg (fun s : String => s.data.length) h
    simpa using h2
  · exact lt_of_le_of_lt (trueRBO_le_one _ _ (1 / 2) (by norm_num) (by norm_num)) hlog

/-- C13 (code at the input of `TestIntersection`): for `[one,two,three]` and
`[two,three,four]` the code returns eight entries, six empty strings followed by
`two` and `three`; the claim and the test expect the two shared elements only. -/
theorem intersection_at_test_input :
    intersection ["one", "two", "three"] ["two", "three", "four"]
      = ["", "", "", "", "", "", "two", "three"] ∧
    (intersection ["one", "two", "three"] ["two", "three", "four"]).length = 8 ∧
    "" ∈ intersection ["one", "two", "three"] ["two", "three", "four"] ∧
    "" ∉ ["one", "two", "three"] := by
  decide

theorem overlap_self_nat {F : Type} [LinearOrderedField F] (a : Node) (d : Nat)
    (ha : a.Members ≠ []) (hd : 1 ≤ d) :
    (overlap a a (d : Int) : Option F) = some (3 * ((Min.min d a.Members.length : Nat) : F)) := by
  simp only [overlap, agreement_self_nat a d ha hd, min_two_eq, SimpleContainer.Length, ofInt,
    fmul]
  congr 2
  rw [min_assoc, min_self, ← Nat.cast_min]
  norm_cast

/-- C14 (code on two copies of a list): for every non-empty list `a` and every depth
`d ≥ 1` the code gives `overlap(a, a, d) = 3 * min(d, len a)`, three times the number
of shared elements that the claim states. -/
theorem overlap_self_eq_three_times_min {F : Type} [LinearOrderedField F] (a : Node) (d : Int)
    (ha : a.Members ≠ []) (hd : 1 ≤ d) :
    (overlap a a d : Option F) = some (3 * ((Min.min d a.Length : Int) : F)) ∧
      (3 * ((Min.min d a.Length : Int) : F)) ≠ ((Min.min d a.Length : Int) : F) := by
  obtain ⟨n, rfl⟩ := Int.eq_ofNat_of_zero_le (by omega : 0 ≤ d)
  have hpos : 0 < a.Members.length := List.length_pos.mpr ha
  have hmin : (0 : Int) < Min.min (n : Int) a.Length := by
    simp only [SimpleContainer.Length]
    exact lt_min (by omega) (by exact_mod_cast hpos)
  have hcast : ((Min.min (n : Int) a.Length : Int) : F) =
      ((Min.min n a.Members.length : Nat) : F) := by
    simp only [SimpleContainer.Length, ← Nat.cast_min]
    norm_cast
  refine ⟨?_, ?_⟩
  · rw [overlap_self_nat a n ha (by omega), hcast]
  · have h0 : (0 : F) < ((Min.min (n : Int) a.Length : Int) : F) := by exact_mod_cast hmin
    intro h
    linarith

theorem overlap_self_eq_three_times_min_witness :
    (⟨"a", ["a", "b", "c", "d"]⟩ : Node).Members ≠ [] ∧ (1 : Int) ≤ 3 ∧
    (overlap ⟨"a", ["a", "b", "c", "d"]⟩ ⟨"a", ["a", "b", "c", "d"]⟩ 3 : Option ℚ) =
      some (3 * ((Min.min 3 (⟨"a", ["a", "b", "c", "d"]⟩ : Node).Length : Int) : ℚ)) :=
  ⟨by simp, by decide,
    (overlap_self_eq_three_times_min ⟨"a", ["a", "b", "c", "d"]⟩ 3 (by simp) (by decide)).1⟩

theorem rawOverlap_saturate (a b : Node) (d : Int) (hd : Max.max a.Length b.Length ≤ d) :
    rawOverlap a b d = rawOverlap a b (Max.max a.Length b.Length) := by
  have ha : a.Length ≤ d := le_trans (le_max_left _ _) hd
  have hb : b.Length ≤ d := le_trans (le_max_right _ _) hd
  simp only [rawOverlap, min_one_eq, min_eq_right ha, min_eq_right hb,
    min_eq_right (le_max_left a.Length b.Length), min_eq_right (le_max_right a.Length b.Length)]

theorem min_two_saturate (a b : Node) (d : Int) (hd : Max.max a.Length b.Length ≤ d) :
    min d [a.Length, b.Length] = min (Max.max a.Length b.Length) [a.Length, b.Length] := by
  have ha : a.Length ≤ d := le_trans (le_max_left _ _) hd
  simp only [min_two_eq, min_eq_right ha, min_eq_right (le_max_left a.Length b.Length)]

/-- C19: depth saturation.  For every pair of lists `a`, `b` and every depth
`d ≥ max(len a, len b)`, `agreement(a, b, d) = agreement(a, b, max(len a, len b))` and
`overlap(a, b, d) = overlap(a, b, max(len a, len b))`. -/
theorem agreement_overlap_saturate {F : Type} [LinearOrderedField F] (a b : Node) (d : Int)
    (hd : Max.max a.Length b.Length ≤ d) :
    (agreement a b d : Option F) = agreement a b (Max.max a.Length b.Length) ∧
    (overlap a b d : Option F) = overlap a b (Max.max a.Length b.Length) := by
  have hagr : (agreement a b d : Option F) = agreement a b (Max.max a.Length b.Length) := by
    simp only [agreement, rawOverlap_saturate a b d hd]
  refine ⟨hagr, ?_⟩
  simp only [overlap, hagr, min_two_saturate a b d hd]

theorem agreement_overlap_saturate_witness :
    Max.max (⟨"a", ["a", "b", "c", "d"]⟩ : Node).Length (⟨"b", ["a", "b", "c", "d"]⟩ : Node).Length
      ≤ 5 ∧
    (agreement ⟨"a", ["a", "b", "c", "d"]⟩ ⟨"b", ["a", "b", "c", "d"]⟩ 5 : Option ℚ) =
      agreement ⟨"a", ["a", "b", "c", "d"]⟩ ⟨"b", ["a", "b", "c", "d"]⟩
        (Max.max (⟨"a", ["a", "b", "c", "d"]⟩ : Node).Length
          (⟨"b", ["a", "b", "c", "d"]⟩ : Node).Length) ∧
    (overlap ⟨"a", ["a", "b", "c", "d"]⟩ ⟨"b", ["a", "b", "c", "d"]⟩ 5 : Option ℚ) =
      overlap ⟨"a", ["a", "b", "c", "d"]⟩ ⟨"b", ["a", "b", "c", "d"]⟩
        (Max.max (⟨"a", ["a", "b", "c", "d"]⟩ : Node).Length
          (⟨"b", ["a", "b", "c", "d"]⟩ : Node).Length) :=
  ⟨by decide,
    agreement_overlap_saturate ⟨"a", ["a", "b", "c", "d"]⟩ ⟨"b", ["a", "b", "c", "d"]⟩ 5
      (by decide)⟩

theorem min_foldl_spec (rest : List Int) (n0 : Int) :
    rest.foldl (fun m n => if n < m then n else m) n0 ∈ n0 :: rest ∧
      ∀ x ∈ n0 :: rest, rest.foldl (fun m n => if n < m then n else m) n0 ≤ x := by
  induction rest generalizing n0 with
  | nil => simp
  | cons n rest ih =>
    rw [List.foldl_cons]
    obtain ⟨hmem, hle⟩ := ih (if n < n0 then n else n0)
    constructor
    · rcases List.mem_cons.mp hmem with h | h
      · rw [h]
        split_ifs
        · simp
        · simp
      · exact List.mem_cons_of_mem _ (List.mem_cons_of_mem _ h)
    · intro x hx
      have hhead := hle (if n < n0 then n else n0) (List.mem_cons_self _ _)
      rcases List.mem_cons.mp hx with h | h
      · rw [h]
        refine le_trans hhead ?_
        split_ifs with hlt
        · exact hlt.le
        · exact le_rfl
      · rcases List.mem_cons.mp h with h | h
        · rw [h]
          refine le_trans hhead ?_
          split_ifs with hlt
          · exact le_rfl
          · exact not_lt.mp hlt
        · exact hle x (List.mem_cons_of_mem _ h)

/-- C20: for every non-empty list of integers `nums = n0 :: rest`, of any sign and in
any order, `min(nums...)` is an element of `nums` and is less than or equal to every
element of `nums`; on the four inputs of `TestMin` it returns 1, 1, -5 and -5. -/
theorem min_is_least_element (n0 : Int) (rest : List Int) :
    (min n0 rest ∈ n0 :: rest ∧ ∀ x ∈ n0 :: rest, min n0 rest ≤ x) ∧
    min 1 [2, 3, 4, 5] = 1 ∧ min 5 [4, 3, 2, 1] = 1 ∧
    min (-1) [-2, -3, -4, -5] = -5 ∧ min (-5) [-4, -3, -2, -1] = -5 := by
  refine ⟨min_foldl_spec rest n0, ?_, ?_, ?_, ?_⟩ <;> decide

theorem upto_succ (lo hi : Int) (h : lo ≤ hi) : upto lo (hi + 1) = upto lo hi ++ [hi] := by
  have h1 : (hi + 1 - lo).toNat = (hi - lo).toNat + 1 := by omega
  have h2 : lo + (((hi - lo).toNat : Nat) : Int) = hi := by omega
  simp [upto, h1, List.range_succ]
  omega

theorem upto_self (lo : Int) : upto lo lo = [] := by
  simp [upto]

theorem fpow_natCast {F : Type} [LinearOrderedField F] (p : F) (n : Nat) :
    fpow p (n : Int) = some (p ^ n) := by
  have h : ¬ (p = 0 ∧ (n : Int) < 0) := fun h => absurd h.2 (by omega)
  simp only [fpow, if_neg h, zpow_natCast]

theorem agreement_sum_eq {F : Type} [LinearOrderedField F] (a b : Node) (g : Nat → F)
    (hg : ∀ d : Nat, 1 ≤ d → (agreement a b (d : Int) : Option F) = some (g d)) (p : F)
    (n : Nat) :
    (upto 1 ((n : Int) + 1)).foldl
        (fun sum1 d => fadd sum1 (fmul (fpow p d) (agreement a b d))) (some 0)
      = some (∑ d in Finset.Icc 1 n, p ^ d * g d) := by
  induction n with
  | zero => simp [upto_self]
  | succ n ih =>
    have hcast : ((n + 1 : Nat) : Int) = (n : Int) + 1 := by push_cast; ring
    rw [hcast, upto_succ 1 ((n : Int) + 1) (by omega), List.foldl_append, ih]
    simp only [List.foldl_cons, List.foldl_nil]
    rw [← hcast, fpow_natCast, hg (n + 1) (by omega)]
    simp only [fmul, fadd]
    rw [Finset.sum_Icc_succ_top (by omega)]

theorem agreement_some_nat {F : Type} [LinearOrderedField F] (a b : Node) (d : Nat)
    (hd : 1 ≤ d) (ha : a.Members ≠ []) :
    (agreement a b (d : Int) : Option F) =
      some ((((2 * (((a.Members.take d).length * 2 +
          ((b.Members.take d).filter (fun m => decide (m ∈ a.Members.take d))).length : Nat) :
            Int) : Int) : F)) /
        ((((a.Members.take d).length : Int) + ((b.Members.take d).length : Int) : Int) : F)) := by
  have hlen : 0 < (a.Members.take d).length := by
    rw [List.length_take]
    exact lt_min (by omega) (List.length_pos.mpr ha)
  have hne : ((((a.Members.take d).length : Int) + ((b.Members.take d).length : Int) : Int) : F)
      ≠ 0 := by
    have : (0 : Int) < ((a.Members.take d).length : Int) + ((b.Members.take d).length : Int) := by
      omega
    exact_mod_cast this.ne'
  simp only [agreement, rawOverlap_nat, ofInt, fdiv]
  rw [if_neg hne]

theorem orderByLength_same_length (a b : Node) (h : a.Length = b.Length) :
    (orderByLength a b).1.Length = a.Length ∧ (orderByLength a b).2.Length = a.Length := by
  unfold orderByLength
  rw [if_pos h.le]
  exact ⟨rfl, h.symm⟩

theorem rboExt_arith {F : Type} [LinearOrderedField F] (p S G : F) (n : Nat)
    (hn : ((n : Int) : F) ≠ 0) :
    fadd (fmul (fdiv (some (1 - p)) (some p)) (fadd (some S) (some 0)))
        (fmul (some (p ^ n))
          (fadd (fdiv (fsub (fmul (some G) (ofInt (n : Int))) (fmul (some G) (ofInt (n : Int))))
              (ofInt (n : Int)))
            (fdiv (fmul (some G) (ofInt (n : Int))) (ofInt (n : Int)))))
      = fadd (fmul (fdiv (some (1 - p)) (some p)) (some S)) (fmul (some (p ^ n)) (some G)) ∧
    (p ≠ 0 →
      fadd (fmul (fdiv (some (1 - p)) (some p)) (fadd (some S) (some 0)))
        (fmul (some (p ^ n))
          (fadd (fdiv (fsub (fmul (some G) (ofInt (n : Int))) (fmul (some G) (ofInt (n : Int))))
              (ofInt (n : Int)))
            (fdiv (fmul (some G) (ofInt (n : Int))) (ofInt (n : Int)))))
      = some ((1 - p) / p * S + p ^ n * G)) ∧
    (p = 0 →
      fadd (fmul (fdiv (some (1 - p)) (some p)) (fadd (some S) (some 0)))
        (fmul (some (p ^ n))
          (fadd (fdiv (fsub (fmul (some G) (ofInt (n : Int))) (fmul (some G) (ofInt (n : Int))))
              (ofInt (n : Int)))
            (fdiv (fmul (some G) (ofInt (n : Int))) (ofInt (n : Int)))))
      = none) := by
  have hn1 : (n : F) ≠ 0 := by exact_mod_cast hn
  refine ⟨?_, ?_, ?_⟩
  · by_cases hp : p = 0
    · simp [fdiv, fmul, fadd, hp]
    · simp only [fdiv, fmul, fadd, fsub, ofInt, if_neg hp, if_neg hn]
      congr 1
      push_cast
      field_simp
  · intro hp
    simp only [fdiv, fmul, fadd, fsub, ofInt, if_neg hp, if_neg hn]
    congr 1
    push_cast
    field_simp
  · intro hp
    simp [fdiv, fmul, fadd, hp]

/-- C16: for two lists `a`, `b` of the same length `n ≥ 1` and every `p`, `rboExt(a, b, p)`
is `(1-p)/p * (sum for d = 1..n of p^d * agreement(a, b, d)) + p^n * agreement(a, b, n)`:
as an expression in the float operations for every `p` (at `p = 0` both are not finite,
from the division by `p`), and as a number for every `p ≠ 0`, each agreement being a
finite number `g d`. -/
theorem rboExt_same_length {F : Type} [LinearOrderedField F] (a b : Node) (n : Nat)
    (hn : 1 ≤ n) (ha : a.Members.length = n) (hb : b.Members.length = n) (p : F) :
    ∃ g : Nat → F,
      (∀ d : Nat, 1 ≤ d → (agreement a b (d : Int) : Option F) = some (g d)) ∧
      rboExt a b p =
        fadd
          (fmul (fdiv (some (1 - p)) (some p))
            ((upto 1 ((n : Int) + 1)).foldl
              (fun sum1 d => fadd sum1 (fmul (fpow p d) (agreement a b d))) (some 0)))
          (fmul (fpow p (n : Int)) (agreement a b (n : Int))) ∧
      (p ≠ 0 →
        rboExt a b p = some ((1 - p) / p * (∑ d in Finset.Icc 1 n, p ^ d * g d) + p ^ n * g n)) ∧
      (p = 0 → rboExt a b p = none) := by
  have hane : a.Members ≠ [] := by
    intro h
    rw [h] at ha
    simp at ha
    omega
  have haL : a.Length = (n : Int) := by simp [SimpleContainer.Length, ha]
  have hbL : b.Length = (n : Int) := by simp [SimpleContainer.Length, hb]
  obtain ⟨hs, hl⟩ := orderByLength_same_length a b (haL.trans hbL.symm)
  rw [haL] at hs hl
  refine ⟨fun d => _, fun d hd => agreement_some_nat a b d hd hane, ?_⟩
  have hg := fun d hd => agreement_some_nat (F := F) a b d hd hane
  have hsum := agreement_sum_eq a b _ hg p n
  have hnF : ((n : Int) : F) ≠ 0 := by
    have : (0 : Int) < (n : Int) := by omega
    exact_mod_cast this.ne'
  have hmin : min (n : Int) [a.Length, b.Length] = (n : Int) := by
    rw [min_two_eq, haL, hbL, min_self, min_self]
  have hov : (overlap a b (n : Int) : Option F) = fmul (agreement a b (n : Int)) (ofInt (n : Int)) := by
    simp only [overlap, hmin]
  have hext : rboExt a b p =
      fadd (fmul (fdiv (some (1 - p)) (some p))
          (fadd ((upto 1 ((n : Int) + 1)).foldl
            (fun sum1 d => fadd sum1 (fmul (fpow p d) (agreement a b d))) (some 0)) (some 0)))
        (fmul (fpow p (n : Int))
          (fadd (fdiv (fsub (overlap a b (n : Int)) (overlap a b (n : Int))) (ofInt (n : Int)))
            (fdiv (overlap a b (n : Int)) (ofInt (n : Int))))) := by
    simp only [rboExt, hs, hl, upto_self, List.foldl_nil]
  rw [hext, hov, hsum, hg n hn, fpow_natCast]
  exact rboExt_arith p _ _ n hnF

theorem rboExt_same_length_witness :
    1 ≤ 2 ∧ (⟨"a", ["x", "y"]⟩ : Node).Members.length = 2 ∧
    (⟨"b", ["y", "x"]⟩ : Node).Members.length = 2 ∧
    ∃ g : Nat → ℚ,
      (∀ d : Nat, 1 ≤ d →
        (agreement ⟨"a", ["x", "y"]⟩ ⟨"b", ["y", "x"]⟩ (d : Int) : Option ℚ) = some (g d)) ∧
      ((9 / 10 : ℚ) ≠ 0 →
        rboExt ⟨"a", ["x", "y"]⟩ ⟨"b", ["y", "x"]⟩ (9 / 10 : ℚ) =
          some ((1 - 9 / 10) / (9 / 10) * (∑ d in Finset.Icc 1 2, (9 / 10 : ℚ) ^ d * g d) +
            (9 / 10 : ℚ) ^ 2 * g 2)) :=
  ⟨by decide, rfl, rfl,
    (rboExt_same_length ⟨"a", ["x", "y"]⟩ ⟨"b", ["y", "x"]⟩ 2 (by decide) rfl rfl (9 / 10)).imp
      (fun _ h => ⟨h.1, h.2.2.1⟩)⟩

theorem min_one_bounds (depth n : Int) (hd : 0 ≤ depth) (hn : 0 ≤ n) :
    0 ≤ min depth [n] ∧ min depth [n] ≤ n := by
  rw [min_one_eq]
  exact ⟨le_min hd hn, min_le_right _ _⟩

theorem rawOverlapChecked_ok (a b : Node) (depth : Int) (hd : 0 ≤ depth) :
    rawOverlapChecked a.impl b.impl depth = Except.ok (rawOverlap a b depth) := by
  have ha := min_one_bounds depth a.Length hd (by simp [SimpleContainer.Length])
  have hb := min_one_bounds depth b.Length hd (by simp [SimpleContainer.Length])
  have ha1 : 0 ≤ min depth [a.Length] ∧ min depth [a.Length] ≤ (a.Set.length : Int) := ha
  have hb1 : 0 ≤ min depth [b.Length] ∧ min depth [b.Length] ≤ (b.Set.length : Int) := hb
  simp only [rawOverlapChecked, minChecked, sliceTo, SimpleContainer.impl, bind, Except.bind,
    pure, Except.pure, if_pos ha1, if_pos hb1, rawOverlap]

theorem rawOverlapChecked_panics (a b : NodeImpl) (depth : Int) (hd : depth < 0) :
    rawOverlapChecked a b depth = Except.error "slice bounds out of range" := by
  have hmin : min depth [a.Length] < 0 := by
    rw [min_one_eq]
    exact lt_of_le_of_lt (min_le_left _ _) hd
  have hnot : ¬ (0 ≤ min depth [a.Length] ∧ min depth [a.Length] ≤ (a.Set.length : Int)) :=
    fun h => absurd h.1 (not_le.mpr hmin)
  simp only [rawOverlapChecked, minChecked, sliceTo, bind, Except.bind, if_neg hnot]

theorem agreementChecked_ok {F : Type} [LinearOrderedField F] (a b : Node) (depth : Int)
    (hd : 0 ≤ depth) :
    (agreementChecked a.impl b.impl depth : Except String (Option F)) =
      Except.ok (agreement a b depth) := by
  simp only [agreementChecked, rawOverlapChecked_ok a b depth hd, agreement, bind, Except.bind,
    pure, Except.pure]

theorem overlapChecked_ok {F : Type} [LinearOrderedField F] (a b : Node) (depth : Int)
    (hd : 0 ≤ depth) :
    (overlapChecked a.impl b.impl depth : Except String (Option F)) =
      Except.ok (overlap a b depth) := by
  simp only [overlapChecked, minChecked, agreementChecked_ok a b depth hd, overlap, bind,
    Except.bind, pure, Except.pure]
  rfl

theorem foldlM_ok {α β : Type} (l : List α) (f : β → α → Except String β) (g : β → α → β)
    (h : ∀ acc, ∀ d ∈ l, f acc d = Except.ok (g acc d)) (init : β) :
    l.foldlM f init = Except.ok (l.foldl g init) := by
  induction l generalizing init with
  | nil => rfl
  | cons d l ih =>
    rw [List.foldlM_cons, h init d (List.mem_cons_self _ _)]
    exact ih (fun acc e he => h acc e (List.mem_cons_of_mem _ he)) (g init d)

theorem mem_upto (lo hi d : Int) (h : d ∈ upto lo hi) : lo ≤ d ∧ d < hi := by
  simp only [upto, List.mem_map] at h
  obtain ⟨i, hi1, rfl⟩ := h
  simp at hi1
  obtain ⟨k, hk, rfl⟩ := hi1
  omega

theorem length_nonneg (a : Node) : 0 ≤ a.Length := by
  simp [SimpleContainer.Length]

theorem orderByLengthImpl_eq (a b : Node) :
    (orderByLengthImpl a.impl b.impl).1.Length = (orderByLength a b).1.Length ∧
    (orderByLengthImpl a.impl b.impl).2.Length = (orderByLength a b).2.Length := by
  unfold orderByLengthImpl orderByLength
  by_cases h : a.Length ≤ b.Length
  · have h1 : a.impl.Length ≤ b.impl.Length := h
    rw [if_pos h, if_pos h1]
    exact ⟨rfl, rfl⟩
  · have h1 : ¬ a.impl.Length ≤ b.impl.Length := h
    rw [if_neg h, if_neg h1]
    exact ⟨rfl, rfl⟩

theorem orderByLength_nonneg (a b : Node) :
    0 ≤ (orderByLength a b).1.Length ∧ 0 ≤ (orderByLength a b).2.Length := by
  unfold orderByLength
  split_ifs
  · exact ⟨length_nonneg a, length_nonneg b⟩
  · exact ⟨length_nonneg b, length_nonneg a⟩

theorem rboMinChecked_ok {F : Type} [LinearOrderedField F] (ln : F → F) (a b : Node) (p : F) :
    rboMinChecked ln a.impl b.impl p 0 = Except.ok (rboMin ln a b p 0) := by
  have hdepth : 0 ≤ min a.Length [b.Length] := by
    rw [min_one_eq]
    exact le_min (length_nonneg a) (length_nonneg b)
  have hloop := foldlM_ok (upto 1 (min a.Length [b.Length] + 1))
    (fun (sumTerm : Option F) d => do
      let od ← (overlapChecked a.impl b.impl d : Except String (Option F))
      let o := fsub od (overlap a b (min a.Length [b.Length]))
      let val := fmul (fdiv (fpow p d) (ofInt d)) o
      pure (fadd sumTerm val))
    (fun sumTerm d =>
      fadd sumTerm
        (fmul (fdiv (fpow p d) (ofInt d)) (fsub (overlap a b d) (overlap a b (min a.Length [b.Length])))))
    (by
      intro acc d hd
      have hd0 : 0 ≤ d := by
        have := (mem_upto _ _ _ hd).1
        omega
      simp only [overlapChecked_ok a b d hd0, bind, Except.bind, pure, Except.pure])
    (some 0)
  have hmin : minChecked [a.impl.Length, b.impl.Length] = Except.ok (min a.Length [b.Length]) :=
    rfl
  simp only [rboMinChecked, rboMin, if_true, hmin, bind, Except.bind,
    overlapChecked_ok a b _ hdepth] at hloop ⊢
  rw [hloop]
  rfl

theorem rboResChecked_ok {F : Type} [LinearOrderedField F] [FloorRing F] (ln : F → F)
    (a b : Node) (p : F) :
    rboResChecked ln a.impl b.impl p = Except.ok (rboRes ln a b p) := by
  obtain ⟨hs, hl⟩ := orderByLengthImpl_eq a b
  have hl0 := (orderByLength_nonneg a b).2
  simp only [rboResChecked, rboRes, hs, hl, overlapChecked_ok a b _ hl0, bind, Except.bind]
  cases (overlap a b (orderByLength a b).2.Length : Option F) <;> rfl

theorem rboExtChecked_ok {F : Type} [LinearOrderedField F] (a b : Node) (p : F) :
    rboExtChecked a.impl b.impl p = Except.ok (rboExt a b p) := by
  obtain ⟨hs, hl⟩ := orderByLengthImpl_eq a b
  obtain ⟨hs0, hl0⟩ := orderByLength_nonneg a b
  have hloop := foldlM_ok (upto 1 ((orderByLength a b).2.Length + 1))
    (fun (sum1 : Option F) d => do
      let agr ← (agreementChecked a.impl b.impl d : Except String (Option F))
      pure (fadd sum1 (fmul (fpow p d) agr)))
    (fun sum1 d => fadd sum1 (fmul (fpow p d) (agreement a b d)))
    (by
      intro acc d hd
      have hd0 : 0 ≤ d := by
        have := (mem_upto _ _ _ hd).1
        omega
      simp only [agreementChecked_ok a b d hd0, bind, Except.bind, pure, Except.pure])
    (some 0)
  simp only [rboExtChecked, rboExt, hs, hl, overlapChecked_ok a b _ hl0,
    overlapChecked_ok a b _ hs0, bind, Except.bind] at hloop ⊢
  rw [hloop]
  rfl

theorem RBOChecked_ok {F : Type} [LinearOrderedField F] [FloorRing F] (ln : F → F)
    (a b : Node) (p : F) :
    RBOChecked ln a.impl b.impl p = Except.ok (RBO ln a b p) := by
  unfold RBOChecked RBO
  by_cases hp : p < 0 ∨ p > 1
  · rw [if_pos hp, if_pos hp]
    rfl
  · rw [if_neg hp, if_neg hp]
    simp only [rboMinChecked_ok, rboResChecked_ok, rboExtChecked_ok, bind, Except.bind, pure,
      Except.pure]

theorem impl_of_length_eq (a : NodeImpl) (ha : a.Length = (a.Set.length : Int)) :
    (⟨a.Label, a.Set⟩ : Node).impl = a := by
  cases a
  simp only [SimpleContainer.impl, SimpleContainer.Label, SimpleContainer.Set,
    SimpleContainer.Length] at ha ⊢
  rw [ha]

theorem RBOChecked_panics_on_wrong_length :
    RBOChecked (fun _ => (0 : ℚ)) ⟨"a", ["x"], 2⟩ ⟨"b", ["x", "y"], 2⟩ (1 / 2)
      = Except.error "slice bounds out of range" := by
  have hp : ¬ ((1 / 2 : ℚ) < 0 ∨ (1 / 2 : ℚ) > 1) := by norm_num
  have hraw : rawOverlapChecked ⟨"a", ["x"], 2⟩ ⟨"b", ["x", "y"], 2⟩ 2
      = Except.error "slice bounds out of range" := by
    rfl
  simp only [RBOChecked, if_neg hp, rboMinChecked, overlapChecked, agreementChecked, minChecked,
    hraw, bind, Except.bind, if_true, pure, Except.pure]
  rfl

/-- C17: for every pair of nodes whose `Length()` is the length of their `Set()`, and
every `p`, `RBO` run with the run-time checks of Go ends without a panic and returns
what the unchecked reading returns: no slice bound and no index of `min` is out of
range.  `rawOverlap` itself is in range exactly for the depths `≥ 0` (a negative depth
panics), so every depth that `rboMin`, `rboRes` and `rboExt` pass to it is `≥ 0`; and for
such a depth each slice bound `min(depth, Length())` lies between 0 and the length of the
member slice. -/
theorem RBO_never_out_of_range {F : Type} [LinearOrderedField F] [FloorRing F] (ln : F → F)
    (a b : NodeImpl) (p : F) (ha : a.Length = (a.Set.length : Int))
    (hb : b.Length = (b.Set.length : Int)) :
    RBOChecked ln a b p = Except.ok (RBO ln ⟨a.Label, a.Set⟩ ⟨b.Label, b.Set⟩ p) ∧
    (∀ depth : Int, (∃ r, rawOverlapChecked a b depth = Except.ok r) ↔ 0 ≤ depth) ∧
    (∀ depth : Int, 0 ≤ depth →
      (0 ≤ min depth [a.Length] ∧ min depth [a.Length] ≤ (a.Set.length : Int)) ∧
      (0 ≤ min depth [b.Length] ∧ min depth [b.Length] ≤ (b.Set.length : Int))) := by
  have ha1 := impl_of_length_eq a ha
  have hb1 := impl_of_length_eq b hb
  refine ⟨?_, ?_, ?_⟩
  · have h := RBOChecked_ok ln ⟨a.Label, a.Set⟩ ⟨b.Label, b.Set⟩ p
    rw [ha1, hb1] at h
    exact h
  · intro depth
    constructor
    · rintro ⟨r, hr⟩
      by_contra hneg
      rw [rawOverlapChecked_panics a b depth (not_le.mp hneg)] at hr
      exact Except.noConfusion hr
    · intro hd
      have h := rawOverlapChecked_ok ⟨a.Label, a.Set⟩ ⟨b.Label, b.Set⟩ depth hd
      rw [ha1, hb1] at h
      exact ⟨_, h⟩
  · intro depth hd
    rw [← ha, ← hb]
    exact ⟨min_one_bounds depth a.Length hd (by rw [ha]; exact Int.natCast_nonneg _),
      min_one_bounds depth b.Length hd (by rw [hb]; exact Int.natCast_nonneg _)⟩

theorem RBO_never_out_of_range_witness :
    (⟨"a", ["x"], 1⟩ : NodeImpl).Length = (((⟨"a", ["x"], 1⟩ : NodeImpl).Set.length : Nat) : Int) ∧
    (⟨"b", [], 0⟩ : NodeImpl).Length = (((⟨"b", [], 0⟩ : NodeImpl).Set.length : Nat) : Int) ∧
    RBOChecked (fun _ => (0 : ℚ)) ⟨"a", ["x"], 1⟩ ⟨"b", [], 0⟩ (1 / 2) =
      Except.ok (RBO (fun _ => (0 : ℚ)) ⟨"a", ["x"]⟩ ⟨"b", []⟩ (1 / 2)) :=
  ⟨rfl, rfl,
    (RBO_never_out_of_range (fun _ => (0 : ℚ)) ⟨"a", ["x"], 1⟩ ⟨"b", [], 0⟩ (1 / 2) rfl rfl).1⟩

end rbo

/-! ## Properties of pkg/graph -/

namespace graph

open rbo

theorem computeRow_of_valid {F : Type} [LinearOrderedField F] [FloorRing F] (ln : F → F)
    (p : F) (hp0 : 0 ≤ p) (hp1 : p ≤ 1) (i : Nat) (source : Node) (row : List (Nat × Node))
    (edges : List (Edge F)) :
    computeRow ln p i source row edges =
      (edges ++ (row.filter (fun tgt => decide (i ≠ tgt.1))).map
        (fun tgt => edgeOf ln p source tgt.2), none) := by
  induction row generalizing edges with
  | nil => simp [computeRow]
  | cons t row ih =>
    obtain ⟨j, target⟩ := t
    by_cases hij : i = j
    · subst hij
      simp [computeRow, ih]
    · simp [computeRow, hij, ih, (RBO_ext_of_valid ln source target p hp0 hp1).1]

theorem computeRows_of_valid {F : Type} [LinearOrderedField F] [FloorRing F] (ln : F → F)
    (p : F) (hp0 : 0 ≤ p) (hp1 : p ≤ 1) (all rows : List (Nat × Node))
    (edges : List (Edge F)) :
    computeRows ln p all rows edges =
      (edges ++ rows.flatMap (fun src => (all.filter (fun tgt => decide (src.1 ≠ tgt.1))).map
        (fun tgt => edgeOf ln p src.2 tgt.2)), none) := by
  induction rows generalizing edges with
  | nil => simp [computeRows]
  | cons r rows ih =>
    obtain ⟨i, source⟩ := r
    simp [computeRows, computeRow_of_valid ln p hp0 hp1, ih]

/-- Edge that a successful task produces. -/
theorem Compute_of_valid {F : Type} [LinearOrderedField F] [FloorRing F] (ln : F → F)
    (p : F) (hp0 : 0 ≤ p) (hp1 : p ≤ 1) (nodes : List Node) :
    Compute ln p nodes =
      ((poolTasks p nodes).map (fun t => edgeOf ln t.pVal t.Source t.Target), none) := by
  simp [Compute, computeRows_of_valid ln p hp0 hp1, poolTasks, List.map_flatMap,
    Function.comp_def]

theorem enum_eq_map_range (nodes : List Node) (d : Node) :
    nodes.enum = (List.range nodes.length).map (fun i => (i, nodes.getD i d)) := by
  apply List.ext_getElem
  · simp
  · intro n h1 h2
    simp at h1
    simp [List.getD_eq_getElem?_getD, h1]

theorem length_filter_ne_range (n i : Nat) (hi : i < n) :
    ((List.range n).filter (fun j => decide (i ≠ j))).length = n - 1 := by
  have h1 : (List.range n).filter (fun j => decide (i ≠ j)) = (List.range n).erase i := by
    rw [(List.nodup_range n).erase_eq_filter]
    apply List.filter_congr
    intro j _
    by_cases h : i = j
    · subst h; simp
    · have h2 : j ≠ i := fun e => h e.symm
      simp [h, h2]
  rw [h1, List.length_erase_of_mem (List.mem_range.mpr hi), List.length_range]

theorem length_orderedPairs (n : Nat) : (orderedPairs n).length = n * (n - 1) := by
  unfold orderedPairs
  rw [List.length_flatMap]
  have h : (List.range n).map (List.length ∘ fun i =>
      (((List.range n).filter (fun j => decide (i ≠ j))).map (fun j => (i, j))))
      = (List.range n).map (fun _ => n - 1) := by
    apply List.map_congr_left
    intro i hi
    rw [Function.comp_apply, List.length_map, length_filter_ne_range n i (List.mem_range.mp hi)]
  rw [h]
  simp

theorem poolTasks_eq_orderedPairs {F : Type} (p : F) (nodes : List Node) (d : Node) :
    poolTasks p nodes = (orderedPairs nodes.length).map
      (fun ij => { Source := nodes.getD ij.1 d, Target := nodes.getD ij.2 d, pVal := p }) := by
  unfold poolTasks orderedPairs
  rw [enum_eq_map_range nodes d]
  simp [List.map_flatMap, List.flatMap_map, List.filter_map, Function.comp_def]

/-- C8: for every `p` in `[0, 1]` and every list of `n` nodes, `Compute(p, nodes)`
returns a nil error and exactly `n*(n-1)` edges: for each ordered pair `(i, j)` with
`i ≠ j`, in row-major order, the edge from the label of `nodes[i]` to the label of
`nodes[j]` weighted by the extrapolated value of `RBO(nodes[i], nodes[j], p)`. -/
theorem Compute_all_ordered_pairs {F : Type} [LinearOrderedField F] [FloorRing F]
    (ln : F → F) (p : F) (hp0 : 0 ≤ p) (hp1 : p ≤ 1) (nodes : List Node) :
    (Compute ln p nodes).2 = none ∧
    (Compute ln p nodes).1.length = nodes.length * (nodes.length - 1) ∧
    (Compute ln p nodes).1 = (orderedPairs nodes.length).map (fun ij =>
      { Source := (nodes.getD ij.1 ⟨"", []⟩).Label
        Target := (nodes.getD ij.2 ⟨"", []⟩).Label
        similarity := (RBO ln (nodes.getD ij.1 ⟨"", []⟩) (nodes.getD ij.2 ⟨"", []⟩) p).ext }) := by
  rw [Compute_of_valid ln p hp0 hp1, poolTasks_eq_orderedPairs p nodes ⟨"", []⟩]
  refine ⟨rfl, ?_, ?_⟩
  · simp [length_orderedPairs]
  · simp [edgeOf, Function.comp_def]

theorem coe_eraseIdx {α : Type} (l : List α) (i : Nat) (x : α) (h : l.get? i = some x) :
    (l : Multiset α) = x ::ₘ (l.eraseIdx i : Multiset α) := by
  induction l generalizing i with
  | nil => simp at h
  | cons a l ih =>
    cases i with
    | zero =>
      simp at h
      subst h
      simp
    | succ i =>
      simp at h
      have := ih i (by simpa using h)
      simp only [List.eraseIdx_cons_succ, ← Multiset.cons_coe]
      rw [this, Multiset.cons_swap]

theorem length_eraseIdx_of_get {α : Type} (l : List α) (i : Nat) (x : α)
    (h : l.get? i = some x) : (l.eraseIdx i).length + 1 = l.length := by
  have hlt : i < l.length := by
    by_contra hge
    rw [List.get?_eq_none.mpr (not_lt.mp hge)] at h
    exact Option.noConfusion h
  rw [List.length_eraseIdx, if_pos hlt]
  omega

theorem Inv_start {F : Type} [LinearOrderedField F] [FloorRing F] (ln : F → F) (p : F)
    (nodes : List Node) :
    Inv ln ((poolTasks p nodes).map (workerSend ln) : Multiset (Send F))
      (ComputePool.start p nodes) where
  outcomes_eq := by simp [System.outcomes, ComputePool.start, NewPool]
  wg_eq := by simp [ComputePool.start, NewPool]
  closed_todo := by simp [ComputePool.start, NewPool]
  not_panicked := rfl
  concurrency_pos := by simp [ComputePool.start, NewPool]
  work_cap_pos := by simp [ComputePool.start, NewPool]
  results_cap_pos := by simp [ComputePool.start, NewPool]
  errors_cap_pos := by simp [ComputePool.start, NewPool]

theorem Inv_step {F : Type} [LinearOrderedField F] [FloorRing F] (ln : F → F)
    (all : Multiset (Send F)) (s s1 : System F) (act : Action) (hinv : Inv ln all s)
    (hstep : step ln s act = some s1) : Inv ln all s1 := by
  obtain ⟨hout, hwg, hclosed, hpan, hconc, hwcap, hrcap, hecap⟩ := hinv
  cases act with
  | add =>
    simp only [step] at hstep
    split at hstep
    · exact Option.noConfusion hstep
    · rename_i t rest htodo
      split at hstep
      · cases hstep
        refine ⟨?_, ?_, ?_, hpan, hconc, hwcap, hrcap, hecap⟩
        · rw [← hout]
          simp only [System.outcomes, htodo, List.map_append, List.map_cons, List.map_nil,
            ← Multiset.coe_add, ← Multiset.cons_coe, ← Multiset.singleton_add, Multiset.coe_nil,
            add_zero, zero_add]
          abel
        · simp only [List.length_append, List.length_cons, List.length_nil] at hwg ⊢
          omega
        · intro hc
          have := hclosed hc
          rw [htodo] at this
          exact List.noConfusion this
      · exact Option.noConfusion hstep
  | doneAdding =>
    simp only [step] at hstep
    split at hstep
    · rename_i hcond
      cases hstep
      refine ⟨by simpa only [System.outcomes] using hout, hwg, ?_, hpan, hconc, hwcap, hrcap,
        hecap⟩
      intro _
      simp only [Bool.and_eq_true, List.isEmpty_iff] at hcond
      exact hcond.1
    · exact Option.noConfusion hstep
  | receive =>
    simp only [step] at hstep
    split at hstep
    · exact Option.noConfusion hstep
    · rename_i t rest hwork
      split at hstep
      · cases hstep
        refine ⟨?_, ?_, hclosed, hpan, hconc, hwcap, hrcap, hecap⟩
        · rw [← hout]
          simp only [System.outcomes, hwork, List.map_append, List.map_cons, List.map_nil,
            ← Multiset.coe_add, ← Multiset.cons_coe, ← Multiset.singleton_add, Multiset.coe_nil,
            add_zero, zero_add]
          abel
        · simp only [hwork, List.length_append, List.length_cons, List.length_nil] at hwg ⊢
          omega
      · exact Option.noConfusion hstep
  | send i =>
    simp only [step] at hstep
    split at hstep
    · exact Option.noConfusion hstep
    · rename_i err hget
      split at hstep
      · cases hstep
        refine ⟨?_, ?_, hclosed, hpan, hconc, hwcap, hrcap, hecap⟩
        · rw [← hout]
          simp only [System.outcomes, Send.deliver, coe_eraseIdx s.sending i _ hget, List.map_append, List.map_cons, List.map_nil,
            ← Multiset.coe_add, ← Multiset.cons_coe, ← Multiset.singleton_add, Multiset.coe_nil,
            add_zero, zero_add]
          abel
        · have := length_eraseIdx_of_get s.sending i _ hget
          simp only [Send.deliver, List.length_append, List.length_cons, List.length_nil] at hwg ⊢
          omega
      · exact Option.noConfusion hstep
    · rename_i edge hget
      split at hstep
      · cases hstep
        refine ⟨?_, ?_, hclosed, hpan, hconc, hwcap, hrcap, hecap⟩
        · rw [← hout]
          simp only [System.outcomes, Send.deliver, coe_eraseIdx s.sending i _ hget, List.map_append, List.map_cons, List.map_nil,
            ← Multiset.coe_add, ← Multiset.cons_coe, ← Multiset.singleton_add, Multiset.coe_nil,
            add_zero, zero_add]
          abel
        · have := length_eraseIdx_of_get s.sending i _ hget
          simp only [Send.deliver, List.length_append, List.length_cons, List.length_nil] at hwg ⊢
          omega
      · exact Option.noConfusion hstep
  | collectResult =>
    simp only [step] at hstep
    split at hstep
    · exact Option.noConfusion hstep
    · rename_i edge rest hres
      cases hstep
      refine ⟨?_, ?_, hclosed, ?_, hconc, hwcap, hrcap, hecap⟩
      · rw [← hout]
        simp only [System.outcomes, hres, List.map_append, List.map_cons, List.map_nil,
          ← Multiset.coe_add, ← Multiset.cons_coe, ← Multiset.singleton_add, Multiset.coe_nil,
          add_zero, zero_add]
        abel
      · simp only [hres, List.length_cons] at hwg ⊢
        omega
      · simp only [hres, List.length_cons] at hwg
        simp only [hpan, Bool.false_or, decide_eq_false_iff_not]
        omega
  | collectError =>
    simp only [step] at hstep
    split at hstep
    · exact Option.noConfusion hstep
    · rename_i err rest herr
      cases hstep
      refine ⟨?_, ?_, hclosed, ?_, hconc, hwcap, hrcap, hecap⟩
      · rw [← hout]
        simp only [System.outcomes, herr, List.map_append, List.map_cons, List.map_nil,
          ← Multiset.coe_add, ← Multiset.cons_coe, ← Multiset.singleton_add, Multiset.coe_nil,
          add_zero, zero_add]
        abel
      · simp only [herr, List.length_cons] at hwg ⊢
        omega
      · simp only [herr, List.length_cons] at hwg
        simp only [hpan, Bool.false_or, decide_eq_false_iff_not]
        omega

theorem Inv_run {F : Type} [LinearOrderedField F] [FloorRing F] (ln : F → F)
    (all : Multiset (Send F)) (sched : List Action) (s s1 : System F) (hinv : Inv ln all s)
    (hrun : run ln s sched = some s1) : Inv ln all s1 := by
  induction sched generalizing s with
  | nil =>
    simp only [run, Option.some.injEq] at hrun
    exact hrun ▸ hinv
  | cons act rest ih =>
    simp only [run] at hrun
    split at hrun
    · exact Option.noConfusion hrun
    · rename_i s2 hs2
      exact ih s2 (Inv_step ln all s s2 act hinv hs2) hrun

theorem fuel_step {F : Type} [LinearOrderedField F] [FloorRing F] (ln : F → F)
    (s s1 : System F) (act : Action) (hstep : step ln s act = some s1) : s1.fuel < s.fuel := by
  cases act with
  | add =>
    simp only [step] at hstep
    split at hstep
    · exact Option.noConfusion hstep
    · rename_i t rest htodo
      split at hstep
      · cases hstep
        simp only [System.fuel, htodo, List.length_append, List.length_cons, List.length_nil]
        omega
      · exact Option.noConfusion hstep
  | doneAdding =>
    simp only [step] at hstep
    split at hstep
    · rename_i hcond
      cases hstep
      simp only [Bool.and_eq_true, Bool.not_eq_true'] at hcond
      simp only [System.fuel, hcond.2]
      simp
    · exact Option.noConfusion hstep
  | receive =>
    simp only [step] at hstep
    split at hstep
    · exact Option.noConfusion hstep
    · rename_i t rest hwork
      split at hstep
      · cases hstep
        simp only [System.fuel, hwork, List.length_append, List.length_cons, List.length_nil]
        omega
      · exact Option.noConfusion hstep
  | send i =>
    simp only [step] at hstep
    split at hstep
    · exact Option.noConfusion hstep
    · rename_i err hget
      split at hstep
      · cases hstep
        have := length_eraseIdx_of_get s.sending i _ hget
        simp only [System.fuel, Send.deliver, List.length_append, List.length_cons,
          List.length_nil]
        omega
      · exact Option.noConfusion hstep
    · rename_i edge hget
      split at hstep
      · cases hstep
        have := length_eraseIdx_of_get s.sending i _ hget
        simp only [System.fuel, Send.deliver, List.length_append, List.length_cons,
          List.length_nil]
        omega
      · exact Option.noConfusion hstep
  | collectResult =>
    simp only [step] at hstep
    split at hstep
    · exact Option.noConfusion hstep
    · rename_i edge rest hres
      cases hstep
      simp only [System.fuel, hres, List.length_cons]
      omega
  | collectError =>
    simp only [step] at hstep
    split at hstep
    · exact Option.noConfusion hstep
    · rename_i err rest herr
      cases hstep
      simp only [System.fuel, herr, List.length_cons]
      omega

theorem progress {F : Type} [LinearOrderedField F] [FloorRing F] (ln : F → F)
    (all : Multiset (Send F)) (s : System F) (hinv : Inv ln all s) :
    (∃ act s1, step ln s act = some s1) ∨
      ComputePool.result s = ResultsOutcome.returned s.pool.edges none := by
  obtain ⟨-, hwg, hclosed, -, hconc, hwcap, hrcap, hecap⟩ := hinv
  cases hres : s.pool.results.buf with
  | cons edge rest => exact Or.inl ⟨Action.collectResult, _, by simp only [step, hres]; rfl⟩
  | nil =>
  cases herr : s.pool.errors.buf with
  | cons err rest => exact Or.inl ⟨Action.collectError, _, by simp only [step, herr]; rfl⟩
  | nil =>
  cases hsend : s.sending with
  | cons x rest =>
    cases x with
    | toErrors err =>
      exact Or.inl ⟨Action.send 0, _, by
        simp only [step, hsend, List.get?_cons_zero, herr, List.length_nil, hecap, if_true]
        rfl⟩
    | toResults edge =>
      exact Or.inl ⟨Action.send 0, _, by
        simp only [step, hsend, List.get?_cons_zero, hres, List.length_nil, hrcap, if_true]
        rfl⟩
  | nil =>
  cases hwork : s.pool.work.buf with
  | cons t rest =>
    exact Or.inl ⟨Action.receive, _, by
      simp only [step, hwork, hsend, List.length_nil, hconc, if_true]
      rfl⟩
  | nil =>
  cases htodo : s.todo with
  | cons t rest =>
    exact Or.inl ⟨Action.add, _, by
      simp only [step, htodo, hwork, List.length_nil, hwcap, if_true]
      rfl⟩
  | nil =>
  cases hc : s.pool.work.closed with
  | false =>
    exact Or.inl ⟨Action.doneAdding, _, by
      simp only [step, htodo, hc, List.isEmpty_nil, Bool.not_false, Bool.and_self, if_true]
      rfl⟩
  | true =>
    right
    have hwg0 : s.pool.wg = 0 := by
      rw [hwg, hres, herr, hsend, hwork]
      rfl
    simp only [ComputePool.result, htodo, hc, List.isEmpty_nil, Bool.and_self, if_true,
      Pool.Results, hwg0, herr, List.length_nil, ne_eq, not_true_eq_false, if_false,
      gt_iff_lt, lt_self_iff_false]

theorem result_returned {F : Type} [LinearOrderedField F] [FloorRing F] (ln : F → F)
    (all : Multiset (Send F)) (s : System F) (hinv : Inv ln all s) (edges : List (Edge F))
    (err : Option String) (h : ComputePool.result s = ResultsOutcome.returned edges err) :
    edges = s.pool.edges ∧ err = none ∧
      all = Multiset.ofList (s.pool.edges.map Send.toResults ++ s.pool.errs.map Send.toErrors) := by
  obtain ⟨hout, hwg, hclosed, -, -, -, -, -⟩ := hinv
  unfold ComputePool.result at h
  split at h
  · rename_i hcond
    simp only [Bool.and_eq_true, List.isEmpty_iff] at hcond
    unfold Pool.Results at h
    split at h
    · exact ResultsOutcome.noConfusion h
    · rename_i hwg0
      have hwg0 : s.pool.wg = 0 := not_not.mp hwg0
      rw [hwg0] at hwg
      have hsum : s.pool.work.buf.length + s.sending.length + s.pool.results.buf.length +
          s.pool.errors.buf.length = 0 := by exact_mod_cast hwg.symm
      have h1 : s.pool.work.buf = [] := List.length_eq_zero.mp (by omega)
      have h2 : s.sending = [] := List.length_eq_zero.mp (by omega)
      have h3 : s.pool.results.buf = [] := List.length_eq_zero.mp (by omega)
      have h4 : s.pool.errors.buf = [] := List.length_eq_zero.mp (by omega)
      simp only [h4, List.length_nil, gt_iff_lt, lt_self_iff_false, if_false] at h
      cases h
      refine ⟨rfl, rfl, ?_⟩
      rw [← hout]
      simp only [System.outcomes, h1, h2, h3, h4, hcond.1, List.map_nil, List.append_nil]
  · exact ResultsOutcome.noConfusion h

theorem can_finish {F : Type} [LinearOrderedField F] [FloorRing F] (ln : F → F)
    (all : Multiset (Send F)) (n : Nat) (s : System F) (hinv : Inv ln all s)
    (hfuel : s.fuel ≤ n) :
    ∃ sched s1, run ln s sched = some s1 ∧
      ComputePool.result s1 = ResultsOutcome.returned s1.pool.edges none := by
  induction n generalizing s with
  | zero =>
    rcases progress ln all s hinv with ⟨act, s1, hstep⟩ | hret
    · have := fuel_step ln s s1 act hstep
      omega
    · exact ⟨[], s, rfl, hret⟩
  | succ n ih =>
    rcases progress ln all s hinv with ⟨act, s1, hstep⟩ | hret
    · have hlt := fuel_step ln s s1 act hstep
      obtain ⟨sched, s2, hrun, hres⟩ :=
        ih s1 (Inv_step ln all s s1 act hinv hstep) (by omega)
      exact ⟨act :: sched, s2, by simp only [run, hstep, hrun], hres⟩
    · exact ⟨[], s, rfl, hret⟩

theorem workerSend_of_valid {F : Type} [LinearOrderedField F] [FloorRing F] (ln : F → F)
    (t : Task F) (hp0 : 0 ≤ t.pVal) (hp1 : t.pVal ≤ 1) :
    workerSend ln t = Send.toResults (edgeOf ln t.pVal t.Source t.Target) := by
  simp only [workerSend, (RBO_ext_of_valid ln t.Source t.Target t.pVal hp0 hp1).1, edgeOf]

theorem pVal_of_mem_poolTasks {F : Type} (p : F) (nodes : List Node) (t : Task F)
    (ht : t ∈ poolTasks p nodes) : t.pVal = p := by
  simp only [poolTasks, List.mem_flatMap, List.mem_map] at ht
  obtain ⟨src, -, tgt, -, rfl⟩ := ht
  rfl

theorem toResults_injective (F : Type) :
    Function.Injective (Send.toResults : Edge F → Send F) := by
  intro a b h
  injection h

theorem edges_perm_of_outcomes {F : Type} (expected edges : List (Edge F)) (errs : List String)
    (h : Multiset.ofList (expected.map Send.toResults) =
      Multiset.ofList (edges.map Send.toResults ++ errs.map Send.toErrors)) :
    edges.Perm expected := by
  have hperm : (expected.map Send.toResults).Perm
      (edges.map Send.toResults ++ errs.map Send.toErrors) := Multiset.coe_eq_coe.mp h
  have herrs : errs = [] := by
    cases errs with
    | nil => rfl
    | cons e rest =>
      have hmem : Send.toErrors e ∈ edges.map Send.toResults ++
          (e :: rest).map (Send.toErrors : String → Send F) := by simp
      have := hperm.mem_iff.mpr hmem
      simp at this
  subst herrs
  simp only [List.map_nil, List.append_nil] at h
  have h2 : Multiset.map Send.toResults (Multiset.ofList expected) =
      Multiset.map Send.toResults (Multiset.ofList edges) := by
    simpa only [Multiset.map_coe] using h
  exact Multiset.coe_eq_coe.mp (Multiset.map_injective (toResults_injective F) h2).symm

/-- C9: for every `p` in `[0, 1]` and every list of nodes, in every state `s` that a run
of `ComputePool(p, nodes)` reaches, under any schedule of the main goroutine, the
workers and the collectors: no goroutine has panicked; either some goroutine can take
a step or `ComputePool` returns; every step uses up fuel, so no run goes on forever,
and the run can be completed to a state in which `ComputePool` returns; and whenever
`ComputePool` returns, the error is nil and the edges are, up to order, exactly the
`n*(n-1)` edges that the sequential `Compute(p, nodes)` returns with its nil error. -/
theorem ComputePool_returns_edges_of_Compute {F : Type} [LinearOrderedField F] [FloorRing F]
    (ln : F → F) (p : F) (hp0 : 0 ≤ p) (hp1 : p ≤ 1) (nodes : List Node)
    (sched : List Action) (s : System F)
    (hrun : run ln (ComputePool.start p nodes) sched = some s) :
    s.panicked = false ∧
    ((∃ act s1, step ln s act = some s1) ∨
      ComputePool.result s = ResultsOutcome.returned s.pool.edges none) ∧
    (∀ act s1, step ln s act = some s1 → s1.fuel < s.fuel) ∧
    (∃ rest s1, run ln s rest = some s1 ∧
      ComputePool.result s1 = ResultsOutcome.returned s1.pool.edges none) ∧
    (∀ edges err, ComputePool.result s = ResultsOutcome.returned edges err →
      err = none ∧ (Compute ln p nodes).2 = none ∧ edges.Perm (Compute ln p nodes).1 ∧
        edges.length = nodes.length * (nodes.length - 1)) := by
  have hinv := Inv_run ln _ sched _ s (Inv_start ln p nodes) hrun
  refine ⟨hinv.not_panicked, progress ln _ s hinv, fun act s1 h => fuel_step ln s s1 act h,
    can_finish ln _ s.fuel s hinv le_rfl, ?_⟩
  intro edges err hres
  obtain ⟨hedges, herr, hall⟩ := result_returned ln _ s hinv edges err hres
  have hmap : (poolTasks p nodes).map (workerSend ln) =
      ((poolTasks p nodes).map (fun t => edgeOf ln t.pVal t.Source t.Target)).map
        Send.toResults := by
    rw [List.map_map]
    apply List.map_congr_left
    intro t ht
    have hpv := pVal_of_mem_poolTasks p nodes t ht
    exact workerSend_of_valid ln t (hpv ▸ hp0) (hpv ▸ hp1)
  rw [hmap] at hall
  have hperm := edges_perm_of_outcomes _ _ _ hall
  rw [← hedges] at hperm
  have hC := Compute_of_valid ln p hp0 hp1 nodes
  refine ⟨herr, by rw [hC], by rw [hC]; exact hperm, ?_⟩
  rw [hperm.length_eq, List.length_map, poolTasks_eq_orderedPairs p nodes ⟨"", []⟩,
    List.length_map, length_orderedPairs]

/-- C10: for every task handed to a worker, the loop body of `startWorker` performs
exactly one send: when `RBO` fails for the `pVal` of the task (it lies outside
`[0, 1]`) one error is added to the error channel and the result channel is left as
it is; otherwise one Edge, carrying the source label, the target label and the
extrapolated value of `RBO(Source, Target, pVal)`, is added to the result channel and
the error channel is left as it is. -/
theorem worker_one_outcome_per_task {F : Type} [LinearOrderedField F] [FloorRing F]
    (ln : F → F) (t : Task F) (errors : List String) (results : List (Edge F)) :
    ((RBO ln t.Source t.Target t.pVal).err ≠ none ↔ (t.pVal < 0 ∨ t.pVal > 1)) ∧
    (workerSend ln t).deliver errors results =
      if t.pVal < 0 ∨ t.pVal > 1 then
        (errors ++ ["could not compute RBO for " ++ t.Source.Label ++ " -> " ++ t.Target.Label],
          results)
      else
        (errors, results ++ [⟨t.Source.Label, t.Target.Label,
          (RBO ln t.Source t.Target t.pVal).ext⟩]) := by
  by_cases h : t.pVal < 0 ∨ t.pVal > 1
  · simp [workerSend, Send.deliver, RBO, h]
  · simp [workerSend, Send.deliver, RBO, h]


theorem Compute_all_ordered_pairs_witness :
    (0 : ℚ) ≤ 9 / 10 ∧ (9 / 10 : ℚ) ≤ 1 ∧
    (Compute (fun _ => (0 : ℚ)) (9 / 10) [⟨"a", ["x", "y"]⟩, ⟨"b", ["y", "x"]⟩]).2 = none ∧
    (Compute (fun _ => (0 : ℚ)) (9 / 10) [⟨"a", ["x", "y"]⟩, ⟨"b", ["y", "x"]⟩]).1.length
      = 2 * (2 - 1) :=
  ⟨by norm_num, by norm_num,
    (Compute_all_ordered_pairs (fun _ => (0 : ℚ)) (9 / 10) (by norm_num) (by norm_num)
      [⟨"a", ["x", "y"]⟩, ⟨"b", ["y", "x"]⟩]).1,
    (Compute_all_ordered_pairs (fun _ => (0 : ℚ)) (9 / 10) (by norm_num) (by norm_num)
      [⟨"a", ["x", "y"]⟩, ⟨"b", ["y", "x"]⟩]).2.1⟩

theorem exampleSchedule_run :
    run (fun _ => (0 : ℚ)) (ComputePool.start (9 / 10) [⟨"a", ["x", "y"]⟩, ⟨"b", ["y", "x"]⟩])
      exampleSchedule = some exampleFinal := by
  have h1 := workerSend_of_valid (fun _ => (0 : ℚ)) ⟨⟨"a", ["x", "y"]⟩, ⟨"b", ["y", "x"]⟩, 9 / 10⟩
    (by norm_num) (by norm_num)
  have h2 := workerSend_of_valid (fun _ => (0 : ℚ)) ⟨⟨"b", ["y", "x"]⟩, ⟨"a", ["x", "y"]⟩, 9 / 10⟩
    (by norm_num) (by norm_num)
  simp only [exampleSchedule, exampleFinal, run, step, ComputePool.start, NewPool, poolTasks,
    List.enum, List.enumFrom, List.flatMap, List.map, List.filter, List.flatten, List.append,
    Send.deliver]
  simp [h1, h2, step, run, Send.deliver]

theorem ComputePool_returns_edges_of_Compute_witness :
    (0 : ℚ) ≤ 9 / 10 ∧ (9 / 10 : ℚ) ≤ 1 ∧
    run (fun _ => (0 : ℚ)) (ComputePool.start (9 / 10) [⟨"a", ["x", "y"]⟩, ⟨"b", ["y", "x"]⟩])
      exampleSchedule = some exampleFinal ∧
    exampleFinal.panicked = false ∧
    (∀ edges err, ComputePool.result exampleFinal = ResultsOutcome.returned edges err →
      err = none ∧
      (Compute (fun _ => (0 : ℚ)) (9 / 10) [⟨"a", ["x", "y"]⟩, ⟨"b", ["y", "x"]⟩]).2 = none ∧
      edges.Perm
        (Compute (fun _ => (0 : ℚ)) (9 / 10) [⟨"a", ["x", "y"]⟩, ⟨"b", ["y", "x"]⟩]).1 ∧
      edges.length = 2 * (2 - 1)) :=
  ⟨by norm_num, by norm_num, exampleSchedule_run,
    (ComputePool_returns_edges_of_Compute (fun _ => (0 : ℚ)) (9 / 10) (by norm_num)
      (by norm_num) [⟨"a", ["x", "y"]⟩, ⟨"b", ["y", "x"]⟩] exampleSchedule exampleFinal
      exampleSchedule_run).1,
    (ComputePool_returns_edges_of_Compute (fun _ => (0 : ℚ)) (9 / 10) (by norm_num)
      (by norm_num) [⟨"a", ["x", "y"]⟩, ⟨"b", ["y", "x"]⟩] exampleSchedule exampleFinal
      exampleSchedule_run).2.2.2.2⟩

theorem RBO_err_of_invalid {F : Type} [LinearOrderedField F] [FloorRing F] (ln : F → F)
    (a b : Node) (p : F) (hp : p < 0 ∨ p > 1) :
    (RBO ln a b p).err = some "p must be between 0 and 1" := by
  simp only [RBO, if_pos hp]

theorem Compute_of_invalid {F : Type} [LinearOrderedField F] [FloorRing F] (ln : F → F)
    (p : F) (hp : p < 0 ∨ p > 1) (n0 n1 : Node) (rest : List Node) :
    Compute ln p (n0 :: n1 :: rest) =
      ([], some ("unable to compute edge for " ++ n0.Label ++ " -> " ++ n1.Label ++
        ": " ++ "p must be between 0 and 1")) := by
  simp [Compute, List.enum, List.enumFrom, computeRows, computeRow,
    RBO_err_of_invalid ln n0 n1 p hp]

theorem Compute_of_short {F : Type} [LinearOrderedField F] [FloorRing F] (ln : F → F)
    (p : F) (nodes : List Node) (h : nodes.length < 2) : Compute ln p nodes = ([], none) := by
  match nodes, h with
  | [], _ => simp [Compute, List.enum, List.enumFrom, computeRows]
  | [n0], _ => simp [Compute, List.enum, List.enumFrom, computeRows, computeRow]
  | _ :: _ :: _, h => exact absurd h (by simp only [List.length_cons]; omega)

theorem Compute_error_iff {F : Type} [LinearOrderedField F] [FloorRing F] (ln : F → F)
    (p : F) (nodes : List Node) :
    ((Compute ln p nodes).2 ≠ none ↔ ((p < 0 ∨ p > 1) ∧ 2 ≤ nodes.length)) ∧
    ((p < 0 ∨ p > 1) → ∀ n0 n1 rest, nodes = n0 :: n1 :: rest →
      Compute ln p nodes =
        ([], some ("unable to compute edge for " ++ n0.Label ++ " -> " ++ n1.Label ++
          ": " ++ "p must be between 0 and 1"))) ∧
    (nodes.length < 2 → Compute ln p nodes = ([], none)) := by
  refine ⟨?_, ?_, Compute_of_short ln p nodes⟩
  · constructor
    · intro herr
      by_cases hp : p < 0 ∨ p > 1
      · refine ⟨hp, ?_⟩
        by_contra hlen
        rw [Compute_of_short ln p nodes (by omega)] at herr
        exact herr rfl
      · exfalso
        have hp0 : 0 ≤ p := not_lt.mp (fun h => hp (Or.inl h))
        have hp1 : p ≤ 1 := not_lt.mp (fun h => hp (Or.inr h))
        rw [Compute_of_valid ln p hp0 hp1 nodes] at herr
        exact herr rfl
    · rintro ⟨hp, hlen⟩
      match nodes, hlen with
      | n0 :: n1 :: rest, _ =>
        rw [Compute_of_invalid ln p hp n0 n1 rest]
        simp
  · intro hp n0 n1 rest hnodes
    rw [hnodes]
    exact Compute_of_invalid ln p hp n0 n1 rest

theorem RBOAt_finite {F : Type} [LinearOrderedField F] [FloorRing F] (ln : F → F)
    (a b : Node) (x : F) : RBOAt ln a b (Float64.finite x) = RBO ln a b x := by
  unfold RBOAt RBO
  by_cases h : x < 0 ∨ x > 1
  · have h1 : (Float64.finite x).ltZero ∨ (Float64.finite x).gtOne := h
    rw [if_pos h, if_pos h1]
  · have h1 : ¬ ((Float64.finite x).ltZero ∨ (Float64.finite x).gtOne) := h
    rw [if_neg h, if_neg h1]

theorem computeRowAt_finite {F : Type} [LinearOrderedField F] [FloorRing F] (ln : F → F)
    (x : F) (i : Nat) (source : Node) (row : List (Nat × Node)) (edges : List (Edge F)) :
    computeRowAt ln (Float64.finite x) i source row edges = computeRow ln x i source row edges := by
  induction row generalizing edges with
  | nil => rfl
  | cons t row ih =>
    obtain ⟨j, target⟩ := t
    simp only [computeRowAt, computeRow, RBOAt_finite, ih, edgeOf]

theorem computeRowsAt_finite {F : Type} [LinearOrderedField F] [FloorRing F] (ln : F → F)
    (x : F) (all rows : List (Nat × Node)) (edges : List (Edge F)) :
    computeRowsAt ln (Float64.finite x) all rows edges = computeRows ln x all rows edges := by
  induction rows generalizing edges with
  | nil => rfl
  | cons r rows ih =>
    obtain ⟨i, source⟩ := r
    simp only [computeRowsAt, computeRows, computeRowAt_finite, ih]

theorem ComputeAt_finite {F : Type} [LinearOrderedField F] [FloorRing F] (ln : F → F)
    (x : F) (nodes : List Node) : ComputeAt ln (Float64.finite x) nodes = Compute ln x nodes := by
  simp only [ComputeAt, Compute, computeRowsAt_finite]

theorem computeRowAt_of_pass {F : Type} [LinearOrderedField F] [FloorRing F] (ln : F → F)
    (p : Float64 F) (hp : ¬ (p.ltZero ∨ p.gtOne)) (i : Nat) (source : Node)
    (row : List (Nat × Node)) (edges : List (Edge F)) :
    computeRowAt ln p i source row edges =
      (edges ++ (row.filter (fun tgt => decide (i ≠ tgt.1))).map
        (fun tgt => (⟨source.Label, tgt.2.Label, (RBOAt ln source tgt.2 p).ext⟩ : Edge F)),
        none) := by
  have herr : ∀ target, (RBOAt ln source target p).err = none := by
    intro target
    unfold RBOAt
    rw [if_neg hp]
    cases p <;> rfl
  induction row generalizing edges with
  | nil => simp [computeRowAt]
  | cons t row ih =>
    obtain ⟨j, target⟩ := t
    by_cases hij : i = j
    · subst hij
      simp [computeRowAt, ih]
    · simp [computeRowAt, hij, ih, herr target]

theorem computeRowsAt_of_pass {F : Type} [LinearOrderedField F] [FloorRing F] (ln : F → F)
    (p : Float64 F) (hp : ¬ (p.ltZero ∨ p.gtOne)) (all rows : List (Nat × Node))
    (edges : List (Edge F)) :
    computeRowsAt ln p all rows edges =
      (edges ++ rows.flatMap (fun src => (all.filter (fun tgt => decide (src.1 ≠ tgt.1))).map
        (fun tgt => (⟨src.2.Label, tgt.2.Label, (RBOAt ln src.2 tgt.2 p).ext⟩ : Edge F))),
        none) := by
  induction rows generalizing edges with
  | nil => simp [computeRowsAt]
  | cons r rows ih =>
    obtain ⟨i, source⟩ := r
    simp [computeRowsAt, computeRowAt_of_pass ln p hp, ih]

theorem ComputeAt_of_pass {F : Type} [LinearOrderedField F] [FloorRing F] (ln : F → F)
    (p : Float64 F) (hp : ¬ (p.ltZero ∨ p.gtOne)) (nodes : List Node) :
    (ComputeAt ln p nodes).2 = none ∧
      (ComputeAt ln p nodes).1.length = nodes.length * (nodes.length - 1) := by
  have hlen : (nodes.enum.flatMap (fun src =>
      (nodes.enum.filter (fun tgt => decide (src.1 ≠ tgt.1))).map
        (fun tgt => (⟨src.2.Label, tgt.2.Label, (RBOAt ln src.2 tgt.2 p).ext⟩ : Edge F)))).length
      = (poolTasks p nodes).length := by
    simp only [poolTasks, List.length_flatMap, List.length_map, Function.comp_def]
  simp only [ComputeAt, computeRowsAt_of_pass ln p hp, List.nil_append, hlen, true_and]
  rw [poolTasks_eq_orderedPairs p nodes ⟨"", []⟩, List.length_map, length_orderedPairs]

theorem ComputeAt_of_fail {F : Type} [LinearOrderedField F] [FloorRing F] (ln : F → F)
    (p : Float64 F) (hp : p.ltZero ∨ p.gtOne) (n0 n1 : Node) (rest : List Node) :
    ComputeAt ln p (n0 :: n1 :: rest) =
      ([], some ("unable to compute edge for " ++ n0.Label ++ " -> " ++ n1.Label ++
        ": " ++ "p must be between 0 and 1")) := by
  have herr : (RBOAt ln n0 n1 p).err = some "p must be between 0 and 1" := by
    unfold RBOAt
    rw [if_pos hp]
  simp [ComputeAt, List.enum, List.enumFrom, computeRowsAt, computeRowAt, herr]

theorem ComputeAt_of_short {F : Type} [LinearOrderedField F] [FloorRing F] (ln : F → F)
    (p : Float64 F) (nodes : List Node) (h : nodes.length < 2) :
    ComputeAt ln p nodes = ([], none) := by
  match nodes, h with
  | [], _ => simp [ComputeAt, List.enum, List.enumFrom, computeRowsAt]
  | [n0], _ => simp [ComputeAt, List.enum, List.enumFrom, computeRowsAt, computeRowAt]
  | _ :: _ :: _, h => exact absurd h (by simp only [List.length_cons]; omega)

theorem loopItems_eq (n : Nat) :
    loopItems n = (List.range n).flatMap (fun i =>
      (List.range' (i + 1) (n - (i + 1))).map (fun j => ({ source := i, target := j } : pair))) := by
  unfold loopItems
  congr 1
  funext i
  congr 1
  rw [List.filter_eq_self]
  intro j hj
  have := (List.mem_range'_1.mp hj).1
  simp only [decide_eq_true_eq]
  omega

theorem mem_rows_iff (n : Nat) (w : pair) :
    w ∈ (List.range n).flatMap (fun i =>
        (List.range' (i + 1) (n - (i + 1))).map (fun j => ({ source := i, target := j } : pair)))
      ↔ w.source < w.target ∧ w.target < n := by
  simp only [List.mem_flatMap, List.mem_range, List.mem_map, List.mem_range'_1]
  constructor
  · rintro ⟨i, hi, j, ⟨hj1, hj2⟩, rfl⟩
    exact ⟨by show i < j; omega, by show j < n; omega⟩
  · rintro ⟨h1, h2⟩
    exact ⟨w.source, by omega, w.target, ⟨by omega, by omega⟩, rfl⟩

theorem rows_sorted (n : Nat) :
    ((List.range n).flatMap (fun i =>
        (List.range' (i + 1) (n - (i + 1))).map
          (fun j => ({ source := i, target := j } : pair)))).Pairwise
      (fun u v => u.source < v.source ∨ (u.source = v.source ∧ u.target < v.target)) := by
  rw [List.pairwise_flatMap]
  constructor
  · intro i _
    rw [List.pairwise_map]
    exact (List.pairwise_lt_range' (i + 1) (n - (i + 1))).imp (fun h => Or.inr ⟨rfl, h⟩)
  · refine (List.pairwise_lt_range n).imp ?_
    intro i1 i2 hlt x hx y hy
    obtain ⟨j1, _, rfl⟩ := List.mem_map.mp hx
    obtain ⟨j2, _, rfl⟩ := List.mem_map.mp hy
    exact Or.inl hlt

theorem rows_length_aux (n m : Nat) (hm : m ≤ n) :
    2 * ((List.range m).flatMap (fun i =>
        (List.range' (i + 1) (n - (i + 1))).map
          (fun j => ({ source := i, target := j } : pair)))).length + m * (m + 1) = 2 * m * n := by
  induction m with
  | zero => simp
  | succ m ih =>
    have ih1 := ih (by omega)
    obtain ⟨k, rfl⟩ : ∃ k, n = m + 1 + k := ⟨n - (m + 1), by omega⟩
    rw [List.range_succ, List.flatMap_append, List.length_append]
    simp only [List.flatMap_cons, List.flatMap_nil, List.append_nil, List.length_map,
      List.length_range']
    have hk : m + 1 + k - (m + 1) = k := by omega
    rw [hk]
    nlinarith

theorem rows_length (n : Nat) :
    ((List.range n).flatMap (fun i =>
        (List.range' (i + 1) (n - (i + 1))).map
          (fun j => ({ source := i, target := j } : pair)))).length = n * (n - 1) / 2 := by
  have h := rows_length_aux n n le_rfl
  have h2 : n * (n - 1) = 2 * ((List.range n).flatMap (fun i =>
        (List.range' (i + 1) (n - (i + 1))).map
          (fun j => ({ source := i, target := j } : pair)))).length := by
    cases n with
    | zero => simp
    | succ k =>
      simp only [Nat.add_sub_cancel]
      nlinarith
  rw [h2, Nat.mul_div_cancel_left _ (by decide : 0 < 2)]

theorem loopItems_length (n : Nat) : (loopItems n).length = n * (n - 1) / 2 := by
  rw [loopItems_eq, rows_length]

theorem ParallelInv_start (F : Type) (nodes : List Node) (maxWorkers : Nat) :
    ParallelInv nodes.length (ComputeParallel.start F nodes maxWorkers) where
  items := by simp [ComputeParallel.start]
  count := by simp [ComputeParallel.start]
  work_le := by simp [ComputeParallel.start]
  busy_le := by simp [ComputeParallel.start]
  results_le := by simp [ComputeParallel.start]
  jobs_eq := by simp [ComputeParallel.start]
  work_cap := rfl
  results_cap := rfl

theorem ParallelInv_step {F : Type} [LinearOrderedField F] [FloorRing F] (ln : F → F) (p : F)
    (nodes : List Node) (n : Nat) (s s1 : Parallel F) (act : ParallelAction)
    (hinv : ParallelInv n s) (hstep : stepParallel ln p nodes s act = some s1) :
    ParallelInv n s1 := by
  obtain ⟨hitems, hcount, hwork, hbusy, hres, hjobs, hwcap, hrcap⟩ := hinv
  cases act with
  | iterate =>
    simp only [stepParallel] at hstep
    split at hstep
    · rename_i w rest hpend htodo
      cases hstep
      refine ⟨?_, hcount, hwork, hbusy, hres, ?_, hwcap, hrcap⟩
      · rw [hitems, hpend, htodo]
        simp
      · rw [hpend] at hjobs
        simp only [Option.toList_none, List.length_nil, Option.toList_some,
          List.length_singleton] at hjobs ⊢
        omega
    · exact Option.noConfusion hstep
  | enqueue =>
    simp only [stepParallel] at hstep
    split at hstep
    · exact Option.noConfusion hstep
    · rename_i w hpend
      split at hstep
      · rename_i hroom
        cases hstep
        rw [hwcap] at hroom
        refine ⟨?_, ?_, ?_, hbusy, hres, ?_, hwcap, hrcap⟩
        · rw [hitems, hpend]
          simp
        · simp only [List.length_append, List.length_singleton]
          omega
        · simp only [List.length_append, List.length_singleton]
          omega
        · rw [hpend] at hjobs
          simp only [Option.toList_none, List.length_nil, Option.toList_some,
            List.length_singleton, List.length_append] at hjobs ⊢
          omega
      · exact Option.noConfusion hstep
  | receive =>
    simp only [stepParallel] at hstep
    split at hstep
    · exact Option.noConfusion hstep
    · rename_i w rest hw
      split at hstep
      · rename_i hroom
        cases hstep
        rw [hw] at hcount hwork
        simp only [List.length_cons] at hcount hwork
        refine ⟨hitems, ?_, ?_, ?_, hres, hjobs, hwcap, hrcap⟩
        · simp only [List.length_append, List.length_singleton]
          omega
        · show rest.length ≤ 5
          omega
        · simp only [List.length_append, List.length_singleton]
          omega
      · exact Option.noConfusion hstep
  | send i =>
    simp only [stepParallel] at hstep
    split at hstep
    · exact Option.noConfusion hstep
    · rename_i edge hget
      split at hstep
      · rename_i hroom
        cases hstep
        rw [hrcap] at hroom
        have hlen := length_eraseIdx_of_get s.busy i _ hget
        refine ⟨hitems, ?_, hwork, ?_, ?_, hjobs, hwcap, hrcap⟩
        · simp only [List.length_append, List.length_singleton]
          omega
        · show (s.busy.eraseIdx i).length ≤ s.maxWorkers
          omega
        · simp only [List.length_append, List.length_singleton]
          omega
      · exact Option.noConfusion hstep

theorem ParallelInv_run {F : Type} [LinearOrderedField F] [FloorRing F] (ln : F → F) (p : F)
    (nodes : List Node) (n : Nat) (sched : List ParallelAction) (s s1 : Parallel F)
    (hinv : ParallelInv n s) (hrun : runParallel ln p nodes s sched = some s1) :
    ParallelInv n s1 := by
  induction sched generalizing s with
  | nil =>
    simp only [runParallel, Option.some.injEq] at hrun
    exact hrun ▸ hinv
  | cons act rest ih =>
    simp only [runParallel] at hrun
    split at hrun
    · exact Option.noConfusion hrun
    · rename_i s2 hs2
      exact ih s2 (ParallelInv_step ln p nodes n s s2 act hinv hs2) hrun

/-- C15 (code on more pairs than fit in flight): in every state that `ComputeParallel`
reaches during its producer loop, with `maxWorkers` workers and under any schedule, the
items sent so far, the current one and the iterations still to run are the pairs
`(i, j)` with `i < j < n` in lexicographic order, `jobs` counts the items sent and the
current one, and at most `10 + maxWorkers` items have been sent: each is still in `work`
(capacity 5), with a worker, or in `results` (capacity 5), which nobody reads before the
loop has ended.  So for `n*(n-1)/2 > 10 + maxWorkers` the loop never sends all
`n*(n-1)/2` items and never ends, where the claim has it enqueue every pair. -/
theorem ComputeParallel_loop_sends_at_most {F : Type} [LinearOrderedField F] [FloorRing F]
    (ln : F → F) (p : F) (nodes : List Node) (maxWorkers : Nat) (sched : List ParallelAction)
    (s : Parallel F)
    (hrun : runParallel ln p nodes (ComputeParallel.start F nodes maxWorkers) sched = some s) :
    loopItems nodes.length = s.sent ++ s.pending.toList ++ s.todo ∧
    (∀ w : pair, w ∈ loopItems nodes.length ↔ w.source < w.target ∧ w.target < nodes.length) ∧
    (loopItems nodes.length).Pairwise
      (fun u v => u.source < v.source ∨ (u.source = v.source ∧ u.target < v.target)) ∧
    (loopItems nodes.length).length = nodes.length * (nodes.length - 1) / 2 ∧
    s.jobs = s.sent.length + s.pending.toList.length ∧
    s.sent.length ≤ 10 + maxWorkers ∧
    (10 + maxWorkers < nodes.length * (nodes.length - 1) / 2 →
      s.sent.length < nodes.length * (nodes.length - 1) / 2 ∧
        ¬ (s.todo = [] ∧ s.pending = none)) := by
  have hinv := ParallelInv_run ln p nodes nodes.length sched _ s
    (ParallelInv_start F nodes maxWorkers) hrun
  have hmax : s.maxWorkers = maxWorkers := by
    have hkeep : ∀ (sched : List ParallelAction) (s0 s1 : Parallel F),
        runParallel ln p nodes s0 sched = some s1 → s1.maxWorkers = s0.maxWorkers := by
      intro sched
      induction sched with
      | nil =>
        intro s0 s1 h
        simp only [runParallel, Option.some.injEq] at h
        rw [h]
      | cons act rest ih =>
        intro s0 s1 h
        simp only [runParallel] at h
        split at h
        · exact Option.noConfusion h
        · rename_i s2 hs2
          rw [ih s2 s1 h]
          cases act <;> simp only [stepParallel] at hs2 <;> split at hs2 <;>
            first
            | exact Option.noConfusion hs2
            | (cases hs2; rfl)
            | (split at hs2 <;> first | exact Option.noConfusion hs2 | (cases hs2; rfl))
    exact hkeep sched _ s hrun
  have hbusy := hinv.busy_le
  rw [hmax] at hbusy
  have hsent : s.sent.length ≤ 10 + maxWorkers := by
    have h1 := hinv.count
    have h2 := hinv.work_le
    have h3 := hinv.results_le
    omega
  have hlen := loopItems_length nodes.length
  refine ⟨hinv.items, ?_, ?_, hlen, hinv.jobs_eq, hsent, ?_⟩
  · rw [loopItems_eq]
    exact mem_rows_iff nodes.length
  · rw [loopItems_eq]
    exact rows_sorted nodes.length
  · intro hbig
    refine ⟨by omega, ?_⟩
    rintro ⟨htodo, hpend⟩
    have hitems := congrArg List.length hinv.items
    rw [htodo, hpend, hlen] at hitems
    simp only [Option.toList_none, List.append_nil, List.length_append, List.length_nil] at hitems
    omega

theorem blockingSchedule_run :
    runParallel (fun _ => (0 : ℚ)) (9 / 10) sixNodes (ComputeParallel.start ℚ sixNodes 1)
      blockingSchedule = some blockedState := by
  rfl

theorem blockedState_stuck (act : ParallelAction) :
    stepParallel (fun _ => (0 : ℚ)) (9 / 10) sixNodes blockedState act = none := by
  cases act with
  | iterate => rfl
  | enqueue => rfl
  | receive => rfl
  | send i =>
    cases i with
    | zero => rfl
    | succ k => rfl

theorem ComputeParallel_loop_sends_at_most_witness :
    runParallel (fun _ => (0 : ℚ)) (9 / 10) sixNodes (ComputeParallel.start ℚ sixNodes 1)
      blockingSchedule = some blockedState ∧
    10 + 1 < sixNodes.length * (sixNodes.length - 1) / 2 ∧
    (∀ act, stepParallel (fun _ => (0 : ℚ)) (9 / 10) sixNodes blockedState act = none) ∧
    blockedState.sent.length = 11 ∧ blockedState.jobs = 12 ∧
    sixNodes.length * (sixNodes.length - 1) / 2 = 15 ∧
    blockedState.sent.length < sixNodes.length * (sixNodes.length - 1) / 2 ∧
    ¬ (blockedState.todo = [] ∧ blockedState.pending = none) :=
  ⟨blockingSchedule_run, by decide, blockedState_stuck, rfl, rfl, by decide,
    ((ComputeParallel_loop_sends_at_most (fun _ => (0 : ℚ)) (9 / 10) sixNodes 1 blockingSchedule
      blockedState blockingSchedule_run).2.2.2.2.2.2 (by decide)).1,
    ((ComputeParallel_loop_sends_at_most (fun _ => (0 : ℚ)) (9 / 10) sixNodes 1 blockingSchedule
      blockedState blockingSchedule_run).2.2.2.2.2.2 (by decide)).2⟩

theorem Counted_step {F : Type} [LinearOrderedField F] [FloorRing F] (ln : F → F)
    (tasks : List (Task F)) (s s1 : System F) (act : Action) (hinv : Counted ln tasks s)
    (hstep : step ln s act = some s1) : Counted ln tasks s1 := by
  obtain ⟨⟨added, hadded⟩, hout, hwg, hpan⟩ := hinv
  cases act with
  | add =>
    simp only [step] at hstep
    split at hstep
    · exact Option.noConfusion hstep
    · rename_i t rest htodo
      split at hstep
      · cases hstep
        refine ⟨⟨added ++ [t], by rw [hadded, htodo]; simp⟩, ?_, ?_, hpan⟩
        · rw [← hout]
          simp only [System.outcomes, htodo, List.map_append, List.map_cons, List.map_nil,
            ← Multiset.coe_add, ← Multiset.cons_coe, ← Multiset.singleton_add, Multiset.coe_nil,
            add_zero, zero_add]
          abel
        · simp only [List.length_append, List.length_cons, List.length_nil] at hwg ⊢
          omega
      · exact Option.noConfusion hstep
  | doneAdding =>
    simp only [step] at hstep
    split at hstep
    · rename_i hcond
      cases hstep
      exact ⟨⟨added, hadded⟩, by simpa only [System.outcomes] using hout, hwg, hpan⟩
    · exact Option.noConfusion hstep
  | receive =>
    simp only [step] at hstep
    split at hstep
    · exact Option.noConfusion hstep
    · rename_i t rest hwork
      split at hstep
      · cases hstep
        refine ⟨⟨added, hadded⟩, ?_, ?_, hpan⟩
        · rw [← hout]
          simp only [System.outcomes, hwork, List.map_append, List.map_cons, List.map_nil,
            ← Multiset.coe_add, ← Multiset.cons_coe, ← Multiset.singleton_add, Multiset.coe_nil,
            add_zero, zero_add]
          abel
        · simp only [hwork, List.length_append, List.length_cons, List.length_nil] at hwg ⊢
          omega
      · exact Option.noConfusion hstep
  | send i =>
    simp only [step] at hstep
    split at hstep
    · exact Option.noConfusion hstep
    · rename_i err hget
      split at hstep
      · cases hstep
        refine ⟨⟨added, hadded⟩, ?_, ?_, hpan⟩
        · rw [← hout]
          simp only [System.outcomes, Send.deliver, coe_eraseIdx s.sending i _ hget, List.map_append, List.map_cons, List.map_nil,
            ← Multiset.coe_add, ← Multiset.cons_coe, ← Multiset.singleton_add, Multiset.coe_nil,
            add_zero, zero_add]
          abel
        · have := length_eraseIdx_of_get s.sending i _ hget
          simp only [Send.deliver, List.length_append, List.length_cons, List.length_nil] at hwg ⊢
          omega
      · exact Option.noConfusion hstep
    · rename_i edge hget
      split at hstep
      · cases hstep
        refine ⟨⟨added, hadded⟩, ?_, ?_, hpan⟩
        · rw [← hout]
          simp only [System.outcomes, Send.deliver, coe_eraseIdx s.sending i _ hget, List.map_append, List.map_cons, List.map_nil,
            ← Multiset.coe_add, ← Multiset.cons_coe, ← Multiset.singleton_add, Multiset.coe_nil,
            add_zero, zero_add]
          abel
        · have := length_eraseIdx_of_get s.sending i _ hget
          simp only [Send.deliver, List.length_append, List.length_cons, List.length_nil] at hwg ⊢
          omega
      · exact Option.noConfusion hstep
  | collectResult =>
    simp only [step] at hstep
    split at hstep
    · exact Option.noConfusion hstep
    · rename_i edge rest hres
      cases hstep
      refine ⟨⟨added, hadded⟩, ?_, ?_, ?_⟩
      · rw [← hout]
        simp only [System.outcomes, hres, List.map_append, List.map_cons, List.map_nil,
          ← Multiset.coe_add, ← Multiset.cons_coe, ← Multiset.singleton_add, Multiset.coe_nil,
          add_zero, zero_add]
        abel
      · simp only [hres, List.length_cons] at hwg ⊢
        omega
      · simp only [hres, List.length_cons] at hwg
        simp only [hpan, Bool.false_or, decide_eq_false_iff_not]
        omega
  | collectError =>
    simp only [step] at hstep
    split at hstep
    · exact Option.noConfusion hstep
    · rename_i err rest herr
      cases hstep
      refine ⟨⟨added, hadded⟩, ?_, ?_, ?_⟩
      · rw [← hout]
        simp only [System.outcomes, herr, List.map_append, List.map_cons, List.map_nil,
          ← Multiset.coe_add, ← Multiset.cons_coe, ← Multiset.singleton_add, Multiset.coe_nil,
          add_zero, zero_add]
        abel
      · simp only [herr, List.length_cons] at hwg ⊢
        omega
      · simp only [herr, List.length_cons] at hwg
        simp only [hpan, Bool.false_or, decide_eq_false_iff_not]
        omega

theorem Counted_init {F : Type} [LinearOrderedField F] [FloorRing F] (ln : F → F)
    (concurrency : Nat) (tasks : List (Task F)) :
    Counted ln tasks (System.init F concurrency tasks) where
  added_todo := ⟨[], rfl⟩
  outcomes_eq := by simp [System.outcomes, System.init, NewPool]
  wg_eq := by simp [System.init, NewPool]
  not_panicked := rfl

theorem Counted_run {F : Type} [LinearOrderedField F] [FloorRing F] (ln : F → F)
    (tasks : List (Task F)) (sched : List Action) (s s1 : System F)
    (hinv : Counted ln tasks s) (hrun : run ln s sched = some s1) : Counted ln tasks s1 := by
  induction sched generalizing s with
  | nil =>
    simp only [run, Option.some.injEq] at hrun
    exact hrun ▸ hinv
  | cons act rest ih =>
    simp only [run] at hrun
    split at hrun
    · exact Option.noConfusion hrun
    · rename_i s2 hs2
      exact ih s2 (Counted_step ln tasks s s2 act hinv hs2) hrun

theorem Counted_added {F : Type} [LinearOrderedField F] [FloorRing F] (ln : F → F)
    (tasks : List (Task F)) (s : System F) (hinv : Counted ln tasks s) :
    ∃ added : List (Task F), tasks = added ++ s.todo ∧
      Multiset.ofList (added.map (workerSend ln)) =
        Multiset.ofList (s.pool.edges.map Send.toResults ++ s.pool.errs.map Send.toErrors ++
          s.pool.results.buf.map Send.toResults ++ s.pool.errors.buf.map Send.toErrors ++
          s.sending ++ s.pool.work.buf.map (workerSend ln)) := by
  obtain ⟨⟨added, hadded⟩, hout, -, -⟩ := hinv
  refine ⟨added, hadded, ?_⟩
  rw [hadded, List.map_append, ← Multiset.coe_add] at hout
  unfold System.outcomes at hout
  rw [← Multiset.coe_add] at hout
  exact (add_right_cancel hout).symm

/-- C12: in every state that a pool reaches, whatever the tasks given to it and whatever
the schedule of its owner, its workers and its collectors, the tasks added so far are
`added` (the others are still to add), the WaitGroup counter is the number of tasks added
minus the number of outcomes appended to `edges` and `errs`, it is not negative and
`Done` has not panicked; and when the counter is zero, the outcomes appended to `edges`
and `errs` are exactly the outcomes of the tasks added, one for each. -/
theorem Pool_counter_is_added_minus_appended {F : Type} [LinearOrderedField F] [FloorRing F]
    (ln : F → F) (concurrency : Nat) (tasks : List (Task F)) (sched : List Action)
    (s : System F) (hrun : run ln (System.init F concurrency tasks) sched = some s) :
    ∃ added : List (Task F), tasks = added ++ s.todo ∧
      s.pool.wg = (added.length : Int) - ((s.pool.edges.length + s.pool.errs.length : Nat) : Int) ∧
      0 ≤ s.pool.wg ∧ s.panicked = false ∧
      (s.pool.wg = 0 →
        Multiset.ofList (added.map (workerSend ln)) =
          Multiset.ofList (s.pool.edges.map Send.toResults ++ s.pool.errs.map Send.toErrors)) := by
  have hinv := Counted_run ln tasks sched _ s (Counted_init ln concurrency tasks) hrun
  obtain ⟨added, hadded, hms⟩ := Counted_added ln tasks s hinv
  have hwg := hinv.wg_eq
  have hcard := congrArg Multiset.card hms
  simp only [Multiset.coe_card, List.length_map, List.length_append] at hcard
  refine ⟨added, hadded, ?_, ?_, hinv.not_panicked, ?_⟩
  · rw [hwg, hcard]
    push_cast
    ring
  · rw [hwg]
    exact Int.natCast_nonneg _
  · intro hwg0
    rw [hwg0] at hwg
    have hsum : s.pool.work.buf.length + s.sending.length + s.pool.results.buf.length +
        s.pool.errors.buf.length = 0 := by exact_mod_cast hwg.symm
    have h1 : s.pool.work.buf = [] := List.length_eq_zero.mp (by omega)
    have h2 : s.sending = [] := List.length_eq_zero.mp (by omega)
    have h3 : s.pool.results.buf = [] := List.length_eq_zero.mp (by omega)
    have h4 : s.pool.errors.buf = [] := List.length_eq_zero.mp (by omega)
    simpa only [h1, h2, h3, h4, List.map_nil, List.append_nil] using hms

theorem workerSend_of_invalid {F : Type} [LinearOrderedField F] [FloorRing F] (ln : F → F)
    (t : Task F) (hp : t.pVal < 0 ∨ t.pVal > 1) :
    workerSend ln t =
      Send.toErrors ("could not compute RBO for " ++ t.Source.Label ++ " -> " ++
        t.Target.Label) := by
  simp only [workerSend, RBO_err_of_invalid ln t.Source t.Target t.pVal hp]

theorem failingSchedule_run :
    run (fun _ => (0 : ℚ))
      (System.init ℚ 50 (poolTasks (11 / 10) [⟨"a", ["x", "y"]⟩, ⟨"b", ["y", "x"]⟩]))
      failingSchedule = some failingFinal := by
  have h1 := workerSend_of_invalid (fun _ => (0 : ℚ))
    ⟨⟨"a", ["x", "y"]⟩, ⟨"b", ["y", "x"]⟩, 11 / 10⟩ (Or.inr (by norm_num))
  have h2 := workerSend_of_invalid (fun _ => (0 : ℚ))
    ⟨⟨"b", ["y", "x"]⟩, ⟨"a", ["x", "y"]⟩, 11 / 10⟩ (Or.inr (by norm_num))
  simp only [failingSchedule, failingFinal, run, step, System.init, NewPool, poolTasks,
    List.enum, List.enumFrom, List.flatMap, List.map, List.filter, List.flatten, List.append,
    Send.deliver]
  simp [h1, h2, step, run, Send.deliver, SimpleContainer.Label]

theorem Pool_counter_is_added_minus_appended_witness :
    run (fun _ => (0 : ℚ))
      (System.init ℚ 50 (poolTasks (11 / 10) [⟨"a", ["x", "y"]⟩, ⟨"b", ["y", "x"]⟩]))
      failingSchedule = some failingFinal ∧
    ∃ added : List (Task ℚ),
      poolTasks (11 / 10) [⟨"a", ["x", "y"]⟩, ⟨"b", ["y", "x"]⟩] = added ++ failingFinal.todo ∧
      failingFinal.pool.wg = (added.length : Int) -
        ((failingFinal.pool.edges.length + failingFinal.pool.errs.length : Nat) : Int) ∧
      0 ≤ failingFinal.pool.wg :=
  ⟨failingSchedule_run,
    (Pool_counter_is_added_minus_appended (fun _ => (0 : ℚ)) 50 _ failingSchedule failingFinal
      failingSchedule_run).imp (fun _ h => ⟨h.1, h.2.1, h.2.2.1⟩)⟩

/-- C11 (code on a pool whose tasks have all been collected): in every state that a pool
reaches, once the WaitGroup counter is zero the error channel is empty, so `Results`
returns the accumulated edges with a NIL error, whether or not errors have been
collected in `errs`; the claim expects the first collected error. -/
theorem Results_error_nil_when_collected {F : Type} [LinearOrderedField F] [FloorRing F]
    (ln : F → F) (concurrency : Nat) (tasks : List (Task F)) (sched : List Action)
    (s : System F) (hrun : run ln (System.init F concurrency tasks) sched = some s)
    (hwg : s.pool.wg = 0) :
    s.pool.Results = ResultsOutcome.returned s.pool.edges none := by
  have hinv := Counted_run ln tasks sched _ s (Counted_init ln concurrency tasks) hrun
  have hwg1 := hinv.wg_eq
  rw [hwg] at hwg1
  have hsum : s.pool.work.buf.length + s.sending.length + s.pool.results.buf.length +
      s.pool.errors.buf.length = 0 := by exact_mod_cast hwg1.symm
  have h4 : s.pool.errors.buf = [] := List.length_eq_zero.mp (by omega)
  simp only [Pool.Results, hwg, h4, List.length_nil, ne_eq, not_true_eq_false, if_false,
    gt_iff_lt, lt_self_iff_false]

theorem Results_error_nil_when_collected_witness :
    run (fun _ => (0 : ℚ))
      (System.init ℚ 50 (poolTasks (11 / 10) [⟨"a", ["x", "y"]⟩, ⟨"b", ["y", "x"]⟩]))
      failingSchedule = some failingFinal ∧
    failingFinal.pool.wg = 0 ∧
    failingFinal.pool.errs =
      ["could not compute RBO for a -> b", "could not compute RBO for b -> a"] ∧
    ComputePool.start (11 / 10) [⟨"a", ["x", "y"]⟩, ⟨"b", ["y", "x"]⟩] =
      System.init ℚ 50 (poolTasks (11 / 10) [⟨"a", ["x", "y"]⟩, ⟨"b", ["y", "x"]⟩]) ∧
    ComputePool.result failingFinal = failingFinal.pool.Results ∧
    failingFinal.pool.Results = ResultsOutcome.returned [] none :=
  ⟨failingSchedule_run, rfl, rfl, rfl, rfl,
    Results_error_nil_when_collected (fun _ => (0 : ℚ)) 50 _ failingSchedule failingFinal
      failingSchedule_run rfl⟩


end graph
